import Mathlib

/-!
Proxy pool (`manager/proxyPool.go`).

A shallow embedding of the proxy registry and the session allocator of
`manager/proxyPool.go`, followed by theorems about them.

Modelling conventions.

* A Go `*Proxy` is a reference `Ptr` into a store `heap : Ptr → Proxy`; two map
  entries hold "the same record" exactly when they hold the same reference.
* A Go `map[K]V` is an association list with unique keys (`AList`); `len` of a
  map is the length of its entry list.
* `for _, proxy := range pool.proxyListActive` visits every entry of the map once
  in an order the language leaves open; `GetOneProxy` takes that order as the
  argument `order` (a permutation of the entries of the active map).
* `int64` arithmetic wraps around (`wrapInt64`).
* The mutex is not modelled: every operation is one atomic step on the state.
* The network probe of `TestProxy` and the clock are inputs of the model.
-/

namespace ProxyManager

/-! ## Data model -/

/-- Go pointer to a `Proxy` record. -/
abbrev Ptr := Nat

/-- Go `map[string]*Proxy`. -/
abbrev ProxyMap := AList (fun _ : String => Ptr)

/-- One entry (key, record reference) of a `map[string]*Proxy`. -/
abbrev Entry := Sigma (fun _ : String => Ptr)

/-- Two's complement wrap-around of a Go `int64` result. -/
def wrapInt64 (x : Int) : Int := (x + 2 ^ 63) % 2 ^ 64 - 2 ^ 63

/-- The type `PROXY_STATUS int` of the source. -/
abbrev PROXY_STATUS := Int

def PROXY_STATUS_UNKNOW : PROXY_STATUS := 0
def PROXY_STATUS_ACTIVE : PROXY_STATUS := 1
def PROXY_STATUS_UNAVAILABLE : PROXY_STATUS := 2

/-- The record `type Proxy struct`.  The field `URL` is `url.Parse(proxy)` and is
read only by the HTTP client; it is left out. -/
structure Proxy where
  proxy : String
  Weight : Int
  StatusCode : PROXY_STATUS
  CheckUsed : Int
  LastCheck : Int
  Used : Int
  deriving DecidableEq, Repr

/-- The method `func (proxy *Proxy) IsOk() bool`. -/
def Proxy.IsOk (proxy : Proxy) : Bool := proxy.StatusCode == PROXY_STATUS_ACTIVE

/-- The state of `type ProxyPool struct` that the registry and the allocator read
and write, together with the store of the records its maps point to. -/
structure ProxyPool where
  heap : Ptr → Proxy
  proxyListActive : ProxyMap
  proxyListAll : ProxyMap
  proxyUsed : AList (fun _ : Int => ProxyMap)
  proxyActiveUsed : AList (fun _ : String => String)
  checkInterval : Int

/-! ## Registry operations -/

/-- The method `func (pool *ProxyPool) GetProxy(proxy_url string) *Proxy`;
`none` is the nil pointer. -/
def GetProxy (pool : ProxyPool) (proxy_url : String) : Option Ptr :=
  pool.proxyListAll.lookup proxy_url

/-- The method `func (pool *ProxyPool) addProxyActive(proxy_url string) bool`. -/
def addProxyActive (pool : ProxyPool) (proxy_url : String) : Bool × ProxyPool :=
  match pool.proxyListAll.lookup proxy_url with
  | some proxy =>
    if (pool.proxyListActive.lookup proxy_url).isNone then
      (true, { pool with proxyListActive := pool.proxyListActive.insert proxy_url proxy })
    else
      (false, pool)
  | none => (false, pool)

/-- The method `func (pool *ProxyPool) removeProxyActive(proxy_url string)`. -/
def removeProxyActive (pool : ProxyPool) (proxy_url : String) : ProxyPool :=
  if (pool.proxyListActive.lookup proxy_url).isSome then
    { pool with proxyListActive := pool.proxyListActive.erase proxy_url }
  else
    pool

/-! ## Session allocator -/

/-- The body of the hit branch of the loop of `GetOneProxy`: record the proxy in
the session, count the use, mark it used in the round and reset the round when
it is as large as the active map. -/
def takeProxy (pool : ProxyPool) (logid : Int) (sessionProxys : ProxyMap) (proxy : Ptr) :
    ProxyPool :=
  let addr := (pool.heap proxy).proxy
  let used := pool.proxyActiveUsed.insert addr "1"
  { pool with
    proxyUsed := pool.proxyUsed.insert logid (sessionProxys.insert addr proxy)
    heap := Function.update pool.heap proxy
      { pool.heap proxy with Used := wrapInt64 ((pool.heap proxy).Used + 1) }
    proxyActiveUsed :=
      if used.entries.length ≥ pool.proxyListActive.entries.length then ∅ else used }

/-- The loop `for _, proxy := range pool.proxyListActive` of `GetOneProxy`, over
the entries in the order the iteration visits them.  `none` is the result
`nil, errorNoProxy`. -/
def rangeActive (pool : ProxyPool) (logid : Int) (sessionProxys : ProxyMap) :
    List Entry → Option Ptr × ProxyPool
  | [] => (none, pool)
  | e :: rest =>
    let proxy := e.2
    if (pool.proxyActiveUsed.lookup (pool.heap proxy).proxy).isSome then
      rangeActive pool logid sessionProxys rest
    else if (sessionProxys.lookup (pool.heap proxy).proxy).isNone then
      (some proxy, takeProxy pool logid sessionProxys proxy)
    else
      rangeActive pool logid sessionProxys rest

/-- The method `func (pool *ProxyPool) GetOneProxy(logid int64) (*Proxy, error)`.
`order` is the order in which the range loop visits the active map; `none` is
the result `nil, errorNoProxy`. -/
def GetOneProxy (pool : ProxyPool) (order : List Entry) (logid : Int) :
    Option Ptr × ProxyPool :=
  if pool.proxyListActive.entries.length = 0 then
    (none, pool)
  else
    match pool.proxyUsed.lookup logid with
    | some sessionProxys => rangeActive pool logid sessionProxys order
    | none =>
      rangeActive { pool with proxyUsed := pool.proxyUsed.insert logid ∅ } logid ∅ order

/-- The method `func (pool *ProxyPool) CleanSessionProxy(logid int64)`. -/
def CleanSessionProxy (pool : ProxyPool) (logid : Int) : ProxyPool :=
  if (pool.proxyUsed.lookup logid).isSome then
    { pool with proxyUsed := pool.proxyUsed.erase logid }
  else
    pool

/-! ## Health check -/

/-- The method `func (pool *ProxyPool) TestProxy(proxy *Proxy) bool`.  `now` is
`start.Unix()`, `probeOk` tells whether the probe (HTTP request with matching
content length, or TCP dial) succeeded, and `usedMs` is the duration that
`testlog` stores. -/
def TestProxy (pool : ProxyPool) (proxy : Ptr) (now : Int) (probeOk : Bool) (usedMs : Int) :
    Bool × ProxyPool :=
  if wrapInt64 (now - (pool.heap proxy).LastCheck) < Int.tdiv pool.checkInterval 2 then
    ((pool.heap proxy).IsOk, pool)
  else if probeOk then
    let checked : Proxy :=
      { pool.heap proxy with
        StatusCode := PROXY_STATUS_ACTIVE, CheckUsed := usedMs, LastCheck := now }
    (true, { pool with heap := Function.update pool.heap proxy checked })
  else
    let checked : Proxy :=
      { pool.heap proxy with
        StatusCode := PROXY_STATUS_UNAVAILABLE, CheckUsed := usedMs, LastCheck := now }
    (false, { pool with heap := Function.update pool.heap proxy checked })

/-- The method `func (pool *ProxyPool) TestProxyAddActive(proxy_url string) bool`. -/
def TestProxyAddActive (pool : ProxyPool) (proxy_url : String) (now : Int) (probeOk : Bool)
    (usedMs : Int) : Bool × ProxyPool :=
  match GetProxy pool proxy_url with
  | none => (false, pool)
  | some proxy =>
    let r := TestProxy pool proxy now probeOk usedMs
    if r.1 then
      (true, (addProxyActive r.2 (r.2.heap proxy).proxy).2)
    else
      (true, removeProxyActive r.2 (r.2.heap proxy).proxy)

/-! ## Runs of the pool -/

/-- One call on the pool, with the inputs the model takes from outside. -/
inductive Op where
  | addActive (proxy_url : String)
  | removeActive (proxy_url : String)
  | testAddActive (proxy_url : String) (now : Int) (probeOk : Bool) (usedMs : Int)
  | getOne (logid : Int) (order : List Entry)
  | clean (logid : Int)

/-- The pool after one call. -/
def step (pool : ProxyPool) : Op → ProxyPool
  | .addActive u => (addProxyActive pool u).2
  | .removeActive u => removeProxyActive pool u
  | .testAddActive u now ok ms => (TestProxyAddActive pool u now ok ms).2
  | .getOne logid order => (GetOneProxy pool order logid).2
  | .clean logid => CleanSessionProxy pool logid

/-- The pool after a sequence of calls. -/
def run (pool : ProxyPool) (ops : List Op) : ProxyPool := ops.foldl step pool

/-- The iteration order of an allocation is an order of the active map of the
pool it runs on. -/
def Op.orderOk (pool : ProxyPool) : Op → Prop
  | .getOne _ order => order.Perm pool.proxyListActive.entries
  | _ => True

/-- Every allocation of the run iterates the active map of its own state. -/
def validRun (pool : ProxyPool) : List Op → Prop
  | [] => True
  | op :: ops => op.orderOk pool ∧ validRun (step pool op) ops

/-- The call is `GetOneProxy` or `CleanSessionProxy`. -/
def Op.isSession : Op → Bool
  | .getOne _ _ => true
  | .clean _ => true
  | _ => false

/-- Every key of the active map is the address stored in the record it maps to
(as `loadConf` builds the maps: `proxys[proxy.proxy] = proxy`). -/
def ActiveKeyed (pool : ProxyPool) : Prop :=
  ∀ e ∈ pool.proxyListActive.entries, (pool.heap e.2).proxy = e.1

/-- Every key of the registry of all proxies is the address stored in its record. -/
def AllKeyed (pool : ProxyPool) : Prop :=
  ∀ e ∈ pool.proxyListAll.entries, (pool.heap e.2).proxy = e.1

/-- The addresses a session has been given (empty when it has no entry). -/
def sessionKeys (pool : ProxyPool) (logid : Int) : List String :=
  match pool.proxyUsed.lookup logid with
  | some s => s.keys
  | none => []

/-- Consecutive `GetOneProxy` calls of one session, one per iteration order;
returns the results in call order and the final pool. -/
def GetManyProxy (pool : ProxyPool) (logid : Int) : List (List Entry) → List (Option Ptr) × ProxyPool
  | [] => ([], pool)
  | order :: orders =>
    let r := GetOneProxy pool order logid
    let rs := GetManyProxy r.2 logid orders
    (r.1 :: rs.1, rs.2)

/-! ## Auxiliary definitions for the statements -/

/-- The test the loop of `GetOneProxy` makes on one entry: the address of the
record is neither in `proxyActiveUsed` nor in the map of the session. -/
def candidate (pool : ProxyPool) (sessionProxys : ProxyMap) (e : Entry) : Bool :=
  (pool.proxyActiveUsed.lookup (pool.heap e.2).proxy).isNone &&
    (sessionProxys.lookup (pool.heap e.2).proxy).isNone

/-- The map of the session in `GetOneProxy` (the empty map the call creates when
the session has none). -/
def sessionOf (pool : ProxyPool) (logid : Int) : ProxyMap :=
  match pool.proxyUsed.lookup logid with
  | some s => s
  | none => ∅

/-- The pool after the lazy creation of the session entry in `GetOneProxy`. -/
def ensureSession (pool : ProxyPool) (logid : Int) : ProxyPool :=
  match pool.proxyUsed.lookup logid with
  | some _ => pool
  | none => { pool with proxyUsed := pool.proxyUsed.insert logid ∅ }

/-- The registry invariant: every entry of the active map is an entry of the
registry of all proxies (same key, same record reference). -/
def RegistryInv (pool : ProxyPool) : Prop :=
  ∀ k p, pool.proxyListActive.lookup k = some p → pool.proxyListAll.lookup k = some p

/-- The round invariant of a pool whose active map is keyed by the addresses of
its records: `proxyActiveUsed` holds only active addresses and is smaller than
the active map (or both are empty). -/
def RoundInv (pool : ProxyPool) : Prop :=
  ActiveKeyed pool ∧
  (∀ a ∈ pool.proxyActiveUsed.keys, a ∈ pool.proxyListActive.keys) ∧
  (pool.proxyActiveUsed.entries.length < pool.proxyListActive.entries.length ∨
    pool.proxyListActive.entries = [])

/-- The use counts of the active records are balanced after at most `n` calls:
for some `k ≤ n` every active record has been used `k` times, plus once more
when its address is in `proxyActiveUsed`. -/
def CountInv (n : Nat) (pool : ProxyPool) : Prop :=
  ∃ k : Int, 0 ≤ k ∧ k ≤ n ∧
    ∀ e ∈ pool.proxyListActive.entries,
      (pool.heap e.2).Used = k + (if e.1 ∈ pool.proxyActiveUsed then 1 else 0)

/-- The value fits the Go type `int64`. -/
def inInt64 (x : Int) : Prop := -2 ^ 63 ≤ x ∧ x < 2 ^ 63

instance decInInt64 (x : Int) : Decidable (inInt64 x) :=
  inferInstanceAs (Decidable (-2 ^ 63 ≤ x ∧ x < 2 ^ 63))

instance decActiveKeyed (pool : ProxyPool) : Decidable (ActiveKeyed pool) :=
  inferInstanceAs (Decidable (∀ e ∈ pool.proxyListActive.entries, (pool.heap e.2).proxy = e.1))

instance decOrderOk (pool : ProxyPool) : (op : Op) → Decidable (op.orderOk pool)
  | .addActive _ => isTrue trivial
  | .removeActive _ => isTrue trivial
  | .testAddActive _ _ _ _ => isTrue trivial
  | .getOne _ order => inferInstanceAs (Decidable (order.Perm pool.proxyListActive.entries))
  | .clean _ => isTrue trivial

instance decValidRun : (pool : ProxyPool) → (ops : List Op) → Decidable (validRun pool ops)
  | _, [] => isTrue trivial
  | pool, op :: ops =>
    have := decValidRun (step pool op) ops
    inferInstanceAs (Decidable (op.orderOk pool ∧ validRun (step pool op) ops))

/-! ## Sample pools -/

/-- A store with three records, at references 0, 1 and 2. -/
def sampleHeap : Ptr → Proxy := fun p =>
  { proxy := if p = 0 then "http://10.0.0.1:8080"
      else if p = 1 then "http://10.0.0.2:8080" else "http://10.0.0.3:8080"
    Weight := 1, StatusCode := PROXY_STATUS_ACTIVE, CheckUsed := 0, LastCheck := 0, Used := 0 }

def entryA : Entry := ⟨"http://10.0.0.1:8080", 0⟩
def entryB : Entry := ⟨"http://10.0.0.2:8080", 1⟩
def entryC : Entry := ⟨"http://10.0.0.3:8080", 2⟩

/-- A pool as `LoadProxyPool` returns it: three known proxies, none active yet. -/
def samplePool : ProxyPool :=
  { heap := sampleHeap
    proxyListActive := ∅
    proxyListAll := List.toAList [entryA, entryB, entryC]
    proxyUsed := ∅
    proxyActiveUsed := ∅
    checkInterval := 60 }

/-- A pool that knows only the first two proxies, none active yet. -/
def samplePoolAB : ProxyPool :=
  { samplePool with proxyListAll := List.toAList [entryA, entryB] }

/-- The sample pool with the first two proxies active. -/
def activePoolAB : ProxyPool :=
  { samplePoolAB with proxyListActive := List.toAList [entryA, entryB] }

/-! ## Sample runs -/

/-- The three sample proxies become active, session 1 is given the first one,
then the first one is removed from the active map. -/
def opsStale : List Op :=
  [.addActive entryA.1, .addActive entryB.1, .addActive entryC.1,
    .getOne 1 [entryA, entryB, entryC], .removeActive entryA.1]

/-- With two active proxies: session 1 is given the second, session 2 the first
(which ends the round), session 3 the first again. -/
def opsRound : List Op :=
  [.getOne 1 [entryB, entryA], .getOne 2 [entryA, entryB], .getOne 3 [entryA, entryB]]

/-- Both sample proxies become active, session 1 is given the first one, then
the second one is removed from the active map. -/
def opsShrink : List Op :=
  [.addActive entryA.1, .addActive entryB.1, .getOne 1 [entryA, entryB],
    .removeActive entryB.1]

/-- A run with every kind of call. -/
def opsMixed : List Op :=
  [.testAddActive entryA.1 1000 true 12, .addActive entryB.1, .getOne 7 [entryB, entryA],
    .testAddActive entryB.1 2000 false 30, .clean 7, .removeActive entryC.1,
    .getOne 8 [entryA]]

/-! ## Auxiliary definitions for the health check -/

/-- The throttle test at the head of `TestProxy`:
`start.Unix()-proxy.LastCheck < pool.checkInterval/2` in `int64` arithmetic. -/
def throttled (pool : ProxyPool) (proxy : Ptr) (now : Int) : Prop :=
  wrapInt64 (now - (pool.heap proxy).LastCheck) < Int.tdiv pool.checkInterval 2

instance decThrottled (pool : ProxyPool) (proxy : Ptr) (now : Int) :
    Decidable (throttled pool proxy now) :=
  inferInstanceAs
    (Decidable (wrapInt64 (now - (pool.heap proxy).LastCheck) < Int.tdiv pool.checkInterval 2))

/-- The record a probing `TestProxy` leaves behind: status by the probe outcome,
`CheckUsed` and `LastCheck` as `testlog` stores them. -/
def probedRecord (proxy : Proxy) (now : Int) (probeOk : Bool) (usedMs : Int) : Proxy :=
  { proxy with
    StatusCode := if probeOk then PROXY_STATUS_ACTIVE else PROXY_STATUS_UNAVAILABLE
    CheckUsed := usedMs
    LastCheck := now }

/-- The boolean the health check inside `TestProxyAddActive` returns (false when
the address is unknown and no check is made). -/
def checkResult (pool : ProxyPool) (proxy_url : String) (now : Int) (probeOk : Bool)
    (usedMs : Int) : Bool :=
  match GetProxy pool proxy_url with
  | some proxy => (TestProxy pool proxy now probeOk usedMs).1
  | none => false

/-- The call does not put the address `a` into the active map: it is not
`addProxyActive(a)`, and if it is `TestProxyAddActive(a)` its health check
returns false. -/
def quietFor (a : String) (pool : ProxyPool) : Op → Prop
  | .addActive u => u ≠ a
  | .testAddActive u now ok ms => u ≠ a ∨ checkResult pool u now ok ms = false
  | _ => True

/-- No call of the run puts the address `a` into the active map. -/
def quietRun (a : String) (pool : ProxyPool) : List Op → Prop
  | [] => True
  | op :: ops => quietFor a pool op ∧ quietRun a (step pool op) ops

instance decQuietFor (a : String) (pool : ProxyPool) : (op : Op) → Decidable (quietFor a pool op)
  | .addActive u => inferInstanceAs (Decidable (u ≠ a))
  | .removeActive _ => isTrue trivial
  | .testAddActive u now ok ms =>
    inferInstanceAs (Decidable (u ≠ a ∨ checkResult pool u now ok ms = false))
  | .getOne _ _ => isTrue trivial
  | .clean _ => isTrue trivial

instance decQuietRun (a : String) : (pool : ProxyPool) → (ops : List Op) →
    Decidable (quietRun a pool ops)
  | _, [] => isTrue trivial
  | pool, op :: ops =>
    have := decQuietRun a (step pool op) ops
    inferInstanceAs (Decidable (quietFor a pool op ∧ quietRun a (step pool op) ops))

instance decAllKeyed (pool : ProxyPool) : Decidable (AllKeyed pool) :=
  inferInstanceAs (Decidable (∀ e ∈ pool.proxyListAll.entries, (pool.heap e.2).proxy = e.1))

/-- Calls after a failed check of the second proxy: an allocation, a passing
check of the first proxy, another failing check of the second, a release. -/
def opsQuiet : List Op :=
  [.getOne 3 [entryA], .testAddActive entryA.1 9000 true 5,
    .testAddActive entryB.1 9000 false 40, .clean 3]

/-- Both sample proxies pass their first health check. -/
def opsBothUp : List Op :=
  [.testAddActive entryA.1 1000 true 12, .testAddActive entryB.1 1000 true 15]

/-! ## Loading the pool -/

/-- The loop of `LoadProxyPool` over the baseline map `proxyAll`, in the order
the iteration visits it: an entry is added to the registry when its address is
not there yet. -/
def mergeBaseline (all : ProxyMap) : List Entry → ProxyMap
  | [] => all
  | e :: rest =>
    if (all.lookup e.1).isNone then
      mergeBaseline (all.insert e.1 e.2) rest
    else
      mergeBaseline all rest

/-- The function `func LoadProxyPool(manager *ProxyManager) *ProxyPool`, from the
results of its calls: `aliveFailed` tells that an alive-check URL is configured
and its request failed, `proxyAll` is the map `loadConf("pool.conf")` returned
(`none` when it returned an error), `proxyAllChecked` the map
`loadConf("pool_checked.conf")` returned (its error is ignored), `order` the
order in which the range loop visits `proxyAll`, `heap` the store holding the
loaded records.  `none` is the result `nil`. -/
def LoadProxyPool (heap : Ptr → Proxy) (checkInterval : Int) (aliveFailed : Bool)
    (proxyAll : Option ProxyMap) (proxyAllChecked : ProxyMap) (order : List Entry) :
    Option ProxyPool :=
  if aliveFailed then
    none
  else
    match proxyAll with
    | none => none
    | some _ =>
      let all := mergeBaseline proxyAllChecked order
      if all.entries.length = 0 then
        none
      else
        some
          { heap := heap
            proxyListActive := ∅
            proxyListAll := all
            proxyUsed := ∅
            proxyActiveUsed := ∅
            checkInterval := checkInterval }

/-! ## Persistence

The Go library functions `fmt.Sprintf` (verb `%d`), `strconv.Atoi` and
`url.Parse` are parameters of the model: `fmtInt` renders an integer, `atoi`
reads one (`none` is an error), `urlParse` tells whether the address parses. -/

/-- Go `map[string]string`. -/
abbrev StrMap := AList (fun _ : String => String)

/-- Go map index `info[key]`: the empty string when the key is absent. -/
def mapIndex (info : StrMap) (key : String) : String :=
  match info.lookup key with
  | some v => v
  | none => ""

/-- The method `func (proxy *Proxy) String() string`:
`Sprintf("proxy=%s\tweight=%d\tlast_check=%d\tcheck_used=%d\tstatus=%d", ...)`. -/
def Proxy_String (fmtInt : Int → String) (proxy : Proxy) : String :=
  "proxy=" ++ proxy.proxy ++ "\tweight=" ++ fmtInt proxy.Weight ++
    "\tlast_check=" ++ fmtInt proxy.LastCheck ++ "\tcheck_used=" ++ fmtInt proxy.CheckUsed ++
    "\tstatus=" ++ fmtInt proxy.StatusCode

/-- Go `strings.Join`. -/
def stringsJoin (sep : String) : List String → String
  | [] => ""
  | [a] => a
  | a :: b :: rest => a ++ sep ++ stringsJoin sep (b :: rest)

/-- The lines `ProxyPool.String` collects in `allProxy`, one per entry the range
loop over `proxyListAll` visits. -/
def poolLines (fmtInt : Int → String) (pool : ProxyPool) (order : List Entry) : List String :=
  order.map (fun e => Proxy_String fmtInt (pool.heap e.2))

/-- The method `func (pool *ProxyPool) String() string`; `order` is the order in
which the range loop visits `proxyListAll`. -/
def ProxyPool_String (fmtInt : Int → String) (pool : ProxyPool) (order : List Entry) : String :=
  stringsJoin "\n" (poolLines fmtInt pool order)

/-- The function `func NewProxy(proxyUrl string) *Proxy`; the result is the new
record, `none` is `nil`. -/
def NewProxy (urlParse : String → Bool) (proxyUrl : String) : Option Proxy :=
  if urlParse proxyUrl then
    some { proxy := proxyUrl, Weight := 0, StatusCode := PROXY_STATUS_UNKNOW, CheckUsed := 0,
           LastCheck := 0, Used := 0 }
  else
    none

/-- The value `parseProxy` stores in `intValues[fieldName]`: the result of
`strconv.Atoi(info[fieldName])`, and 0 when it returns an error. -/
def intValue (atoi : String → Option Int) (info : StrMap) (fieldName : String) : Int :=
  match atoi (mapIndex info fieldName) with
  | some n => n
  | none => 0

/-- The method `func (pool *ProxyPool) parseProxy(info map[string]string) *Proxy`;
the argument `none` is the nil map, the result is the new record, `none` is
`nil`. -/
def parseProxy (urlParse : String → Bool) (atoi : String → Option Int) (info : Option StrMap) :
    Option Proxy :=
  match info with
  | none => none
  | some info =>
    match NewProxy urlParse (mapIndex info "proxy") with
    | none => none
    | some proxy =>
      some { proxy with
        Weight := intValue atoi info "weight"
        StatusCode := intValue atoi info "status"
        CheckUsed := intValue atoi info "check_used"
        LastCheck := intValue atoi info "last_check" }

/-- The table `defaultValues` of `loadConf`. -/
def defaultValues : StrMap :=
  List.toAList [⟨"proxy", "required"⟩, ⟨"weight", "1"⟩, ⟨"status", "1"⟩,
    ⟨"last_check", "0"⟩, ⟨"check_used", "0"⟩]

/-- Modelled from the spec: the default filling of `KvMapSlice` (package `utils`,
not part of the source).  The spec lists the fields of a record as `proxy`
(required), `weight` (default 1), `status` (default 1), `last_check`
(default 0), `check_used` (default 0): a record without the required field is
no record, and a field missing from the record takes its default from the
table. -/
def fillDefaults (defaults : StrMap) (kv : StrMap) : Option StrMap :=
  if (kv.lookup "proxy").isNone then none else some (kv ∪ defaults)

/-- The body of the loop of `loadConf` for one key=value record:
`pool.parseProxy(kv)` on the record with its defaults. -/
def loadRecord (urlParse : String → Bool) (atoi : String → Option Int) (kv : StrMap) :
    Option Proxy :=
  parseProxy urlParse atoi (fillDefaults defaultValues kv)

/-- The value the persistence format gives a numeric field of a record: the
integer the field reads as, 0 when the field is present but does not read as an
integer, and the default when the field is missing. -/
def fieldValue (atoi : String → Option Int) (kv : StrMap) (key : String) (dflt : Int) : Int :=
  match kv.lookup key with
  | some s =>
    match atoi s with
    | some n => n
    | none => 0
  | none => dflt

/-- Split a line at every occurrence of the separator (as Go `strings.Split`
with a one-character separator). -/
def splitChar (sep : Char) : List Char → List (List Char)
  | [] => [[]]
  | c :: cs =>
    if c = sep then
      [] :: splitChar sep cs
    else
      match splitChar sep cs with
      | [] => [[c]]
      | w :: ws => (c :: w) :: ws

/-- Split a field `key=value` at its first `=`. -/
def splitKeyValue : List Char → List Char × List Char
  | [] => ([], [])
  | c :: cs =>
    if c = '=' then
      ([], cs)
    else
      (c :: (splitKeyValue cs).1, (splitKeyValue cs).2)

/-- The key=value fields of a line in the format `Proxy.String` writes: the
line is split at tabs and each field at its first `=`. -/
def lineFields (line : String) : List (String × String) :=
  (splitChar '\t' line.data).map
    (fun f => (String.mk (splitKeyValue f).1, String.mk (splitKeyValue f).2))

/-- The map of a list of key=value fields (a later field overwrites an earlier
one with the same key). -/
def fieldsMap (fields : List (String × String)) : StrMap :=
  fields.foldl (fun m kv => m.insert kv.1 kv.2) ∅

/-- The library renders the number without a tab and reads its own rendering
back: `strconv.Atoi(fmt.Sprintf("%d", n)) = n`. -/
def rendersInt (fmtInt : Int → String) (atoi : String → Option Int) (n : Int) : Prop :=
  '\t' ∉ (fmtInt n).data ∧ atoi (fmtInt n) = some n

/-! ## Sample library functions -/

/-- A decimal rendering for the sample evaluations. -/
def sampleFmtInt (n : Int) : String := toString n

/-- The value of a string of decimal digits. -/
def decimalNat (acc : Nat) : List Char → Option Nat
  | [] => some acc
  | c :: cs =>
    if 48 ≤ c.toNat ∧ c.toNat ≤ 57 then decimalNat (acc * 10 + (c.toNat - 48)) cs else none

/-- A decimal reader for the sample evaluations: an optional sign, then at least
one digit, within the range of `int64`. -/
def sampleAtoi (s : String) : Option Int :=
  match s.data with
  | [] => none
  | c :: cs =>
    let r : Option Int :=
      if c = '-' then
        (if cs = [] then none else (decimalNat 0 cs).map (fun n => -(n : Int)))
      else if c = '+' then
        (if cs = [] then none else (decimalNat 0 cs).map (fun n => (n : Int)))
      else
        (decimalNat 0 (c :: cs)).map (fun n => (n : Int))
    match r with
    | some n => if -2 ^ 63 ≤ n ∧ n < 2 ^ 63 then some n else none
    | none => none

/-- A URL check for the sample evaluations: no control character anywhere in
the address (stricter than `url.Parse`). -/
def sampleUrlParse (s : String) : Bool :=
  s.data.all (fun c => decide (32 ≤ c.toNat ∧ c.toNat ≠ 127))

/-- A URL check after `url.Parse` of the Go library, which cuts the address at
the first `#` and rejects control characters in the part before it only: a
fragment may hold a tab. -/
def fragmentUrlParse (s : String) : Bool :=
  (s.data.takeWhile (fun c => decide (c ≠ '#'))).all
    (fun c => decide (32 ≤ c.toNat ∧ c.toNat ≠ 127))

/-- A record whose address has a tab in its fragment. -/
def tabProxy : Proxy :=
  { proxy := "http://10.0.0.1:8080#a\tb", Weight := 1, StatusCode := PROXY_STATUS_ACTIVE,
    CheckUsed := 0, LastCheck := 0, Used := 0 }

instance decRendersInt (fmtInt : Int → String) (atoi : String → Option Int) (n : Int) :
    Decidable (rendersInt fmtInt atoi n) :=
  inferInstanceAs (Decidable ('\t' ∉ (fmtInt n).data ∧ atoi (fmtInt n) = some n))

/-! ## Theorems -/

/-! ### Association lists -/

theorem erase_of_not_mem {α : Type} {β : α → Type} [DecidableEq α] {a : α} {s : AList β}
    (h : a ∉ s) : s.erase a = s := by
  apply AList.ext
  simp only [AList.erase]
  exact List.kerase_of_not_mem_keys h

theorem isNone_iff_not_mem {α : Type} {β : α → Type} [DecidableEq α] {a : α} {s : AList β} :
    (s.lookup a).isNone = true ↔ a ∉ s := by
  rw [Option.isNone_iff_eq_none]
  exact AList.lookup_eq_none

/-! ### The loop of `GetOneProxy` -/

theorem rangeActive_eq_find (pool : ProxyPool) (logid : Int) (s : ProxyMap)
    (order : List Entry) :
    rangeActive pool logid s order =
      match order.find? (candidate pool s) with
      | some e => (some e.2, takeProxy pool logid s e.2)
      | none => (none, pool) := by
  induction order with
  | nil => rfl
  | cons e rest ih =>
    unfold rangeActive
    by_cases h1 : (pool.proxyActiveUsed.lookup (pool.heap e.2).proxy).isSome = true
    · have hc : candidate pool s e = false := by
        unfold candidate
        cases hh : pool.proxyActiveUsed.lookup (pool.heap e.2).proxy with
        | none => simp [hh] at h1
        | some _ => simp
      simp only [h1, if_true, List.find?_cons, hc]
      exact ih
    · by_cases h2 : (s.lookup (pool.heap e.2).proxy).isNone = true
      · have hc : candidate pool s e = true := by
          unfold candidate
          cases hh : pool.proxyActiveUsed.lookup (pool.heap e.2).proxy with
          | none => simpa using h2
          | some _ => simp [hh] at h1
        simp only [h1, h2, if_true, if_false, List.find?_cons, hc, Bool.false_eq_true]
      · have hc : candidate pool s e = false := by
          unfold candidate
          cases hh : s.lookup (pool.heap e.2).proxy with
          | none => simp [hh] at h2
          | some _ => simp
        simp only [h1, h2, if_false, List.find?_cons, hc, Bool.false_eq_true]
        exact ih

theorem GetOneProxy_eq (pool : ProxyPool) (order : List Entry) (logid : Int) :
    GetOneProxy pool order logid =
      if pool.proxyListActive.entries.length = 0 then (none, pool)
      else match order.find? (candidate pool (sessionOf pool logid)) with
        | some e => (some e.2, takeProxy pool logid (sessionOf pool logid) e.2)
        | none => (none, ensureSession pool logid) := by
  unfold GetOneProxy
  by_cases h0 : pool.proxyListActive.entries.length = 0
  · rw [if_pos h0, if_pos h0]
  · rw [if_neg h0, if_neg h0]
    cases hl : pool.proxyUsed.lookup logid with
    | some s =>
      have e1 : sessionOf pool logid = s := by unfold sessionOf; rw [hl]
      have e2 : ensureSession pool logid = pool := by unfold ensureSession; rw [hl]
      rw [e1, e2]
      exact rangeActive_eq_find pool logid s order
    | none =>
      have e1 : sessionOf pool logid = ∅ := by unfold sessionOf; rw [hl]
      have e2 : ensureSession pool logid
          = { pool with proxyUsed := pool.proxyUsed.insert logid ∅ } := by
        unfold ensureSession; rw [hl]
      rw [e1, e2]
      simp only []
      rw [rangeActive_eq_find]
      have e3 : candidate { pool with proxyUsed := pool.proxyUsed.insert logid ∅ } ∅
          = candidate pool ∅ := rfl
      rw [e3]
      cases hf : order.find? (candidate pool ∅) with
      | none => rfl
      | some e =>
        simp only []
        congr 1
        unfold takeProxy
        simp only [AList.insert_insert]

/-! ### Frame lemmas -/

theorem ensureSession_fields (pool : ProxyPool) (logid : Int) :
    (ensureSession pool logid).heap = pool.heap ∧
    (ensureSession pool logid).proxyListActive = pool.proxyListActive ∧
    (ensureSession pool logid).proxyListAll = pool.proxyListAll ∧
    (ensureSession pool logid).proxyActiveUsed = pool.proxyActiveUsed ∧
    (ensureSession pool logid).checkInterval = pool.checkInterval := by
  unfold ensureSession
  cases pool.proxyUsed.lookup logid <;> exact ⟨rfl, rfl, rfl, rfl, rfl⟩

theorem GetOneProxy_maps (pool : ProxyPool) (order : List Entry) (logid : Int) :
    (GetOneProxy pool order logid).2.proxyListActive = pool.proxyListActive ∧
    (GetOneProxy pool order logid).2.proxyListAll = pool.proxyListAll ∧
    (GetOneProxy pool order logid).2.checkInterval = pool.checkInterval ∧
    ∀ p, ((GetOneProxy pool order logid).2.heap p).proxy = (pool.heap p).proxy := by
  rw [GetOneProxy_eq]
  split
  · exact ⟨rfl, rfl, rfl, fun _ => rfl⟩
  · split
    · rename_i e _
      refine ⟨rfl, rfl, rfl, fun p => ?_⟩
      show ((Function.update pool.heap e.2 _) p).proxy = _
      by_cases hp : p = e.2
      · subst hp; rw [Function.update_same]
      · rw [Function.update_noteq hp]
    · have h := ensureSession_fields pool logid
      exact ⟨h.2.1, h.2.2.1, h.2.2.2.2, fun p => by rw [h.1]⟩

theorem CleanSessionProxy_eq (pool : ProxyPool) (logid : Int) :
    CleanSessionProxy pool logid = { pool with proxyUsed := pool.proxyUsed.erase logid } := by
  unfold CleanSessionProxy
  by_cases h : (pool.proxyUsed.lookup logid).isSome = true
  · rw [if_pos h]
  · rw [if_neg h]
    have hn : logid ∉ pool.proxyUsed := fun c => h (AList.lookup_isSome.2 c)
    rw [erase_of_not_mem hn]

theorem GetOneProxy_fresh (pool : ProxyPool) (order : List Entry) (logid : Int)
    (hnew : pool.proxyUsed.lookup logid = none) :
    (GetOneProxy pool order logid).1 =
      if pool.proxyListActive.entries.length = 0 then none
      else (order.find? (fun e =>
        (pool.proxyActiveUsed.lookup (pool.heap e.2).proxy).isNone)).map (fun e => e.2) := by
  rw [GetOneProxy_eq]
  have hs : sessionOf pool logid = ∅ := by
    unfold sessionOf
    rw [hnew]
  rw [hs]
  have hc : candidate pool ∅
      = fun e => (pool.proxyActiveUsed.lookup (pool.heap e.2).proxy).isNone := by
    funext e
    unfold candidate
    simp
  rw [hc]
  split
  · rfl
  · cases List.find? (fun e => (pool.proxyActiveUsed.lookup (pool.heap e.2).proxy).isNone)
      order <;> rfl

/-- C7: `CleanSessionProxy(S)` removes the `proxyUsed` entry of session `S` and
changes nothing else: the entries of all other sessions, `proxyActiveUsed` (the
round), the active map, the registry of all proxies and the store of records
(hence every use count) are unchanged.  Afterwards `GetOneProxy(S)` behaves as
for a session that never allocated: it returns what it returns in any pool with
the same records, active map and round in which `S` has no entry, namely the
first record of the iteration order whose address is not in the round, whatever
`S` held before; so an address previously given to `S` can be returned again. -/
theorem CleanSessionProxy_frame (pool : ProxyPool) (logid : Int) :
    (CleanSessionProxy pool logid).proxyUsed = pool.proxyUsed.erase logid ∧
    (CleanSessionProxy pool logid).proxyUsed.lookup logid = none ∧
    (∀ other, other ≠ logid →
      (CleanSessionProxy pool logid).proxyUsed.lookup other = pool.proxyUsed.lookup other) ∧
    (CleanSessionProxy pool logid).proxyActiveUsed = pool.proxyActiveUsed ∧
    (CleanSessionProxy pool logid).proxyListActive = pool.proxyListActive ∧
    (CleanSessionProxy pool logid).proxyListAll = pool.proxyListAll ∧
    (CleanSessionProxy pool logid).heap = pool.heap ∧
    (∀ (fresh : ProxyPool) (order : List Entry), fresh.heap = pool.heap →
      fresh.proxyListActive = pool.proxyListActive →
      fresh.proxyActiveUsed = pool.proxyActiveUsed →
      fresh.proxyUsed.lookup logid = none →
      (GetOneProxy (CleanSessionProxy pool logid) order logid).1
        = (GetOneProxy fresh order logid).1) ∧
    (∀ order, (GetOneProxy (CleanSessionProxy pool logid) order logid).1 =
      if pool.proxyListActive.entries.length = 0 then none
      else (order.find? (fun e =>
        (pool.proxyActiveUsed.lookup (pool.heap e.2).proxy).isNone)).map (fun e => e.2)) ∧
    (∀ (e : Entry) (rest : List Entry), pool.proxyListActive.entries.length ≠ 0 →
      pool.proxyActiveUsed.lookup (pool.heap e.2).proxy = none →
      (GetOneProxy (CleanSessionProxy pool logid) (e :: rest) logid).1 = some e.2) := by
  have hclean : (CleanSessionProxy pool logid).proxyUsed.lookup logid = none := by
    rw [CleanSessionProxy_eq]; exact AList.lookup_erase _ _
  have main : ∀ order, (GetOneProxy (CleanSessionProxy pool logid) order logid).1 =
      if pool.proxyListActive.entries.length = 0 then none
      else (order.find? (fun e =>
        (pool.proxyActiveUsed.lookup (pool.heap e.2).proxy).isNone)).map (fun e => e.2) := by
    intro order
    rw [GetOneProxy_fresh _ order logid hclean, CleanSessionProxy_eq]
  refine ⟨?_, hclean, ?_, ?_, ?_, ?_, ?_, ?_, main, ?_⟩
  · rw [CleanSessionProxy_eq]
  · rw [CleanSessionProxy_eq]; exact fun other h => AList.lookup_erase_ne h
  · rw [CleanSessionProxy_eq]
  · rw [CleanSessionProxy_eq]
  · rw [CleanSessionProxy_eq]
  · rw [CleanSessionProxy_eq]
  · intro fresh order hh ha hr hnew
    rw [main, GetOneProxy_fresh fresh order logid hnew, hh, ha, hr]
  · intro e rest hne hround
    rw [main, if_neg hne, List.find?_cons]
    simp [hround]

/-! ### The registry invariant -/

theorem addProxyActive_inv (pool : ProxyPool) (a : String) (h : RegistryInv pool) :
    RegistryInv (addProxyActive pool a).2 ∧
    (addProxyActive pool a).2.proxyListAll = pool.proxyListAll := by
  unfold addProxyActive
  cases hl : pool.proxyListAll.lookup a with
  | none => exact ⟨h, rfl⟩
  | some p =>
    by_cases hn : (pool.proxyListActive.lookup a).isNone = true
    · dsimp only
      rw [if_pos hn]
      refine ⟨fun k q hk => ?_, rfl⟩
      by_cases hka : k = a
      · subst hka
        simp only [AList.lookup_insert] at hk
        simp only []
        rw [hl, ← hk]
      · simp only [AList.lookup_insert_ne hka] at hk
        exact h k q hk
    · dsimp only
      rw [if_neg hn]
      exact ⟨h, rfl⟩

theorem removeProxyActive_inv (pool : ProxyPool) (a : String) (h : RegistryInv pool) :
    RegistryInv (removeProxyActive pool a) ∧
    (removeProxyActive pool a).proxyListAll = pool.proxyListAll := by
  unfold removeProxyActive
  by_cases hs : (pool.proxyListActive.lookup a).isSome = true
  · rw [if_pos hs]
    refine ⟨fun k q hk => ?_, rfl⟩
    by_cases hka : k = a
    · subst hka
      simp only [AList.lookup_erase] at hk
      exact absurd hk (by simp)
    · simp only [AList.lookup_erase_ne hka] at hk
      exact h k q hk
  · rw [if_neg hs]
    exact ⟨h, rfl⟩

theorem TestProxy_maps (pool : ProxyPool) (proxy : Ptr) (now : Int) (ok : Bool) (ms : Int) :
    (TestProxy pool proxy now ok ms).2.proxyListActive = pool.proxyListActive ∧
    (TestProxy pool proxy now ok ms).2.proxyListAll = pool.proxyListAll := by
  unfold TestProxy
  split
  · exact ⟨rfl, rfl⟩
  · split <;> exact ⟨rfl, rfl⟩

theorem step_inv (pool : ProxyPool) (op : Op) (h : RegistryInv pool) :
    RegistryInv (step pool op) ∧ (step pool op).proxyListAll = pool.proxyListAll := by
  cases op with
  | addActive u => exact addProxyActive_inv pool u h
  | removeActive u => exact removeProxyActive_inv pool u h
  | clean logid =>
    show RegistryInv (CleanSessionProxy pool logid) ∧
      (CleanSessionProxy pool logid).proxyListAll = pool.proxyListAll
    rw [CleanSessionProxy_eq]
    exact ⟨h, rfl⟩
  | getOne logid order =>
    have hm := GetOneProxy_maps pool order logid
    refine ⟨fun k p hk => ?_, hm.2.1⟩
    show (GetOneProxy pool order logid).2.proxyListAll.lookup k = some p
    rw [hm.2.1]
    apply h
    have hk2 : (GetOneProxy pool order logid).2.proxyListActive.lookup k = some p := hk
    rwa [hm.1] at hk2
  | testAddActive u now ok ms =>
    show RegistryInv (TestProxyAddActive pool u now ok ms).2 ∧
      (TestProxyAddActive pool u now ok ms).2.proxyListAll = _
    unfold TestProxyAddActive
    cases hg : GetProxy pool u with
    | none => exact ⟨h, rfl⟩
    | some proxy =>
      have hm := TestProxy_maps pool proxy now ok ms
      have hr : RegistryInv (TestProxy pool proxy now ok ms).2 := by
        intro k p hk
        rw [hm.1] at hk
        rw [hm.2]
        exact h k p hk
      simp only []
      split
      · have := addProxyActive_inv _ ((TestProxy pool proxy now ok ms).2.heap proxy).proxy hr
        exact ⟨this.1, this.2.trans hm.2⟩
      · have := removeProxyActive_inv _ ((TestProxy pool proxy now ok ms).2.heap proxy).proxy hr
        exact ⟨this.1, this.2.trans hm.2⟩

theorem run_inv (ops : List Op) : ∀ pool : ProxyPool, RegistryInv pool →
    RegistryInv (run pool ops) ∧ (run pool ops).proxyListAll = pool.proxyListAll := by
  induction ops with
  | nil => exact fun pool h => ⟨h, rfl⟩
  | cons op ops ih =>
    intro pool h
    have h1 := step_inv pool op h
    have h2 := ih (step pool op) h1.1
    exact ⟨h2.1, h2.2.trans h1.2⟩

/-- C10: registry invariant.  Starting from a pool whose active map is empty,
after any sequence of `addProxyActive`, `removeProxyActive`,
`TestProxyAddActive`, `GetOneProxy` and `CleanSessionProxy` calls (whatever
the probe outcomes, times and iteration orders), every key of the active map is
a key of the registry of all proxies and maps to the same record reference, and
the registry of all proxies is the one of the start: same keys, same records,
nothing added and nothing deleted. -/
theorem registry_invariant (pool : ProxyPool) (ops : List Op)
    (hstart : pool.proxyListActive = ∅) :
    (∀ k p, (run pool ops).proxyListActive.lookup k = some p →
      (run pool ops).proxyListAll.lookup k = some p) ∧
    (run pool ops).proxyListAll.keys = pool.proxyListAll.keys ∧
    (run pool ops).proxyListAll = pool.proxyListAll := by
  have h0 : RegistryInv pool := by
    intro k p hk
    rw [hstart] at hk
    simp at hk
  have h := run_inv ops pool h0
  exact ⟨h.1, by rw [h.2], h.2⟩

/-! ### `addProxyActive` and `removeProxyActive` -/

/-- C8, counterexample: for an address that is not a key of the registry of all
proxies (and not active), calling `addProxyActive` twice returns false both
times and leaves the active map with no entry for the address, not with
exactly one. -/
theorem addProxyActive_twice_unknown :
    (addProxyActive (addProxyActive samplePoolAB entryC.1).2 entryC.1).1 = false ∧
    ¬ ((addProxyActive (addProxyActive samplePoolAB entryC.1).2 entryC.1).2.proxyListActive.keys.count
        entryC.1 = 1) := by
  decide

/-- C8, amended: for every pool state and address `a`, `addProxyActive(a)`
returns true if and only if `a` is a key of the registry of all proxies and not
a key of the active map; when it returns true the pool changes only in that the
active map gains exactly the entry `a` mapped to the record reference the
registry holds for `a`; when it returns false the state is unchanged; calling it
twice in a row returns false the second time, the second call changes nothing,
and the active map then has exactly one entry for `a` when `a` is a key of the
registry or was already active, and none otherwise. -/
theorem addProxyActive_spec (pool : ProxyPool) (a : String) :
    ((addProxyActive pool a).1 = true ↔ a ∈ pool.proxyListAll ∧ a ∉ pool.proxyListActive) ∧
    ((addProxyActive pool a).1 = true → ∃ p, pool.proxyListAll.lookup a = some p ∧
      (addProxyActive pool a).2 =
        { pool with proxyListActive := pool.proxyListActive.insert a p } ∧
      (addProxyActive pool a).2.proxyListActive.entries
        = ⟨a, p⟩ :: pool.proxyListActive.entries) ∧
    ((addProxyActive pool a).1 = false → (addProxyActive pool a).2 = pool) ∧
    (addProxyActive (addProxyActive pool a).2 a).1 = false ∧
    (addProxyActive (addProxyActive pool a).2 a).2 = (addProxyActive pool a).2 ∧
    (addProxyActive (addProxyActive pool a).2 a).2.proxyListActive.keys.count a
      = if a ∈ pool.proxyListAll ∨ a ∈ pool.proxyListActive then 1 else 0 := by
  cases hl : pool.proxyListAll.lookup a with
  | none =>
    have hall : a ∉ pool.proxyListAll := AList.lookup_eq_none.1 hl
    have e1 : addProxyActive pool a = (false, pool) := by
      unfold addProxyActive; rw [hl]
    rw [e1]; simp only [e1]
    refine ⟨by simp [hall], by simp, by simp, by simp, by simp, ?_⟩
    by_cases hact : a ∈ pool.proxyListActive
    · rw [if_pos (Or.inr hact)]
      exact List.count_eq_one_of_mem pool.proxyListActive.keys_nodup (AList.mem_keys.1 hact)
    · rw [if_neg (by tauto)]
      exact List.count_eq_zero_of_not_mem (fun h => hact (AList.mem_keys.2 h))
  | some p =>
    have hall : a ∈ pool.proxyListAll := by
      rw [← AList.lookup_isSome, hl]; rfl
    by_cases hact : a ∈ pool.proxyListActive
    · have hn : ¬ (pool.proxyListActive.lookup a).isNone = true :=
        fun c => isNone_iff_not_mem.1 c hact
      have e1 : addProxyActive pool a = (false, pool) := by
        unfold addProxyActive; rw [hl]; simp only [hn, if_false]; rfl
      rw [e1]; simp only [e1]
      refine ⟨by simp [hact], by simp, by simp, by simp, by simp, ?_⟩
      rw [if_pos (Or.inr hact)]
      exact List.count_eq_one_of_mem pool.proxyListActive.keys_nodup (AList.mem_keys.1 hact)
    · have hn : (pool.proxyListActive.lookup a).isNone = true := isNone_iff_not_mem.2 hact
      have e1 : addProxyActive pool a =
          (true, { pool with proxyListActive := pool.proxyListActive.insert a p }) := by
        unfold addProxyActive; rw [hl]; simp only [hn, if_true]
      have hact2 : a ∈ pool.proxyListActive.insert a p := (AList.mem_insert _).2 (Or.inl rfl)
      have hn2 : ¬ ((pool.proxyListActive.insert a p).lookup a).isNone = true :=
        fun c => isNone_iff_not_mem.1 c hact2
      have e2 : addProxyActive { pool with proxyListActive := pool.proxyListActive.insert a p } a
          = (false, { pool with proxyListActive := pool.proxyListActive.insert a p }) := by
        unfold addProxyActive; simp only [hl, hn2, if_false]; rfl
      rw [e1]; simp only [e2]
      refine ⟨by simp [hall, hact], fun _ => ⟨p, rfl, rfl, AList.insert_entries_of_neg hact⟩,
        by simp, by simp, by simp, ?_⟩
      rw [if_pos (Or.inl hall)]
      exact List.count_eq_one_of_mem (AList.keys_nodup _) (AList.mem_keys.1 hact2)


/-- C9: for every pool state and address `a`, `removeProxyActive(a)` yields a
state whose active map is the old one without key `a`; every other active entry,
the registry of all proxies, `proxyUsed` (the sessions), the round and the store
of records are unchanged; when `a` is not in the active map the whole state is
unchanged. -/
theorem removeProxyActive_frame (pool : ProxyPool) (a : String) :
    (removeProxyActive pool a).proxyListActive = pool.proxyListActive.erase a ∧
    (∀ b, b ≠ a → (removeProxyActive pool a).proxyListActive.lookup b
        = pool.proxyListActive.lookup b) ∧
    (removeProxyActive pool a).proxyListAll = pool.proxyListAll ∧
    (removeProxyActive pool a).proxyUsed = pool.proxyUsed ∧
    (removeProxyActive pool a).proxyActiveUsed = pool.proxyActiveUsed ∧
    (removeProxyActive pool a).heap = pool.heap ∧
    (a ∉ pool.proxyListActive → removeProxyActive pool a = pool) := by
  unfold removeProxyActive
  by_cases h : a ∈ pool.proxyListActive
  · have h1 : (pool.proxyListActive.lookup a).isSome = true := AList.lookup_isSome.2 h
    rw [if_pos h1]
    refine ⟨rfl, ?_, rfl, rfl, rfl, rfl, fun hn => absurd h hn⟩
    intro b hb
    exact AList.lookup_erase_ne hb
  · have h1 : ¬ (pool.proxyListActive.lookup a).isSome = true := fun c => h (AList.lookup_isSome.1 c)
    rw [if_neg h1]
    refine ⟨(erase_of_not_mem h).symm, fun _ _ => rfl, rfl, rfl, rfl, rfl, fun _ => rfl⟩

/-! ### Success and failure of `GetOneProxy` -/

theorem sessionKeys_eq (pool : ProxyPool) (logid : Int) :
    sessionKeys pool logid = (sessionOf pool logid).keys := by
  unfold sessionKeys sessionOf
  cases pool.proxyUsed.lookup logid <;> rfl

theorem candidate_iff (pool : ProxyPool) (s : ProxyMap) (e : Entry)
    (hk : (pool.heap e.2).proxy = e.1) :
    candidate pool s e = true ↔ e.1 ∉ pool.proxyActiveUsed ∧ e.1 ∉ s := by
  unfold candidate
  rw [hk, Bool.and_eq_true, isNone_iff_not_mem, isNone_iff_not_mem]

theorem entry_of_mem_keys (m : ProxyMap) (a : String) (h : a ∈ m.keys) :
    ∃ p, (⟨a, p⟩ : Entry) ∈ m.entries := by
  have := List.mem_keys.1 h
  exact this

theorem GetOneProxy_none_iff (pool : ProxyPool) (order : List Entry) (logid : Int)
    (hk : ActiveKeyed pool) (ho : order.Perm pool.proxyListActive.entries) :
    (GetOneProxy pool order logid).1 = none ↔
      ∀ a ∈ pool.proxyListActive.keys, a ∈ pool.proxyActiveUsed ∨ a ∈ sessionOf pool logid := by
  rw [GetOneProxy_eq]
  by_cases h0 : pool.proxyListActive.entries.length = 0
  · rw [if_pos h0]
    have : pool.proxyListActive.entries = [] := List.length_eq_zero.1 h0
    simp [AList.keys, this]
  · rw [if_neg h0]
    cases hf : order.find? (candidate pool (sessionOf pool logid)) with
    | none =>
      simp only [true_iff]
      intro a ha
      obtain ⟨p, hp⟩ := entry_of_mem_keys _ a ha
      have hc := List.find?_eq_none.1 hf ⟨a, p⟩ (ho.mem_iff.2 hp)
      have hkk := hk ⟨a, p⟩ hp
      rw [candidate_iff pool _ ⟨a, p⟩ hkk] at hc
      by_contra hcon
      push_neg at hcon
      exact hc hcon
    | some e =>
      refine ⟨fun hcon => absurd hcon (by simp), fun hall => ?_⟩
      exfalso
      have he : e ∈ pool.proxyListActive.entries := ho.mem_iff.1 (List.mem_of_find?_eq_some hf)
      have hc := List.find?_some hf
      rw [candidate_iff pool _ e (hk e he)] at hc
      have hkey : e.1 ∈ pool.proxyListActive.keys := List.mem_keys_of_mem he
      rcases hall e.1 hkey with h | h
      · exact hc.1 h
      · exact hc.2 h

theorem GetOneProxy_some (pool : ProxyPool) (order : List Entry) (logid : Int) (p : Ptr)
    (hk : ActiveKeyed pool) (ho : order.Perm pool.proxyListActive.entries)
    (h : (GetOneProxy pool order logid).1 = some p) :
    pool.proxyListActive.lookup (pool.heap p).proxy = some p ∧
    (pool.heap p).proxy ∉ pool.proxyActiveUsed ∧
    (pool.heap p).proxy ∉ sessionOf pool logid ∧
    (GetOneProxy pool order logid).2 = takeProxy pool logid (sessionOf pool logid) p := by
  rw [GetOneProxy_eq] at h ⊢
  by_cases h0 : pool.proxyListActive.entries.length = 0
  · rw [if_pos h0] at h
    exact absurd h (by simp)
  · rw [if_neg h0] at h ⊢
    cases hf : order.find? (candidate pool (sessionOf pool logid)) with
    | none => rw [hf] at h; exact absurd h (by simp)
    | some e =>
      rw [hf] at h
      have hp : e.2 = p := by simpa using h
      subst hp
      have he : e ∈ pool.proxyListActive.entries := ho.mem_iff.1 (List.mem_of_find?_eq_some hf)
      have hc := List.find?_some hf
      have hkk := hk e he
      rw [candidate_iff pool _ e hkk] at hc
      rw [hkk]
      refine ⟨?_, hc.1, hc.2, rfl⟩
      have : e.2 ∈ pool.proxyListActive.lookup e.1 := AList.mem_lookup_iff.2 (by cases e; exact he)
      exact this

/-! ### What a successful `GetOneProxy` does -/

theorem wrapInt64_of_inInt64 (x : Int) (h : inInt64 x) : wrapInt64 x = x := by
  unfold inInt64 at h
  unfold wrapInt64
  omega

theorem candidate_iff_addr (pool : ProxyPool) (s : ProxyMap) (e : Entry) :
    candidate pool s e = true ↔
      (pool.heap e.2).proxy ∉ pool.proxyActiveUsed ∧ (pool.heap e.2).proxy ∉ s := by
  unfold candidate
  rw [Bool.and_eq_true, isNone_iff_not_mem, isNone_iff_not_mem]

theorem GetOneProxy_none_entries (pool : ProxyPool) (order : List Entry) (logid : Int)
    (ho : order.Perm pool.proxyListActive.entries) :
    (GetOneProxy pool order logid).1 = none ↔
      ∀ e ∈ pool.proxyListActive.entries,
        (pool.heap e.2).proxy ∈ pool.proxyActiveUsed ∨
          (pool.heap e.2).proxy ∈ sessionOf pool logid := by
  rw [GetOneProxy_eq]
  by_cases h0 : pool.proxyListActive.entries.length = 0
  · rw [if_pos h0]
    have : pool.proxyListActive.entries = [] := List.length_eq_zero.1 h0
    simp [this]
  · rw [if_neg h0]
    cases hf : order.find? (candidate pool (sessionOf pool logid)) with
    | none =>
      simp only [true_iff]
      intro e he
      have hc := List.find?_eq_none.1 hf e (ho.mem_iff.2 he)
      rw [candidate_iff_addr] at hc
      by_contra hcon
      push_neg at hcon
      exact hc hcon
    | some e =>
      refine ⟨fun hcon => absurd hcon (by simp), fun hall => ?_⟩
      exfalso
      have he : e ∈ pool.proxyListActive.entries := ho.mem_iff.1 (List.mem_of_find?_eq_some hf)
      have hc := List.find?_some hf
      rw [candidate_iff_addr] at hc
      rcases hall e he with h | h
      · exact hc.1 h
      · exact hc.2 h

theorem GetOneProxy_some_entry (pool : ProxyPool) (order : List Entry) (logid : Int) (p : Ptr)
    (ho : order.Perm pool.proxyListActive.entries)
    (h : (GetOneProxy pool order logid).1 = some p) :
    (∃ e ∈ pool.proxyListActive.entries, e.2 = p) ∧
    (pool.heap p).proxy ∉ pool.proxyActiveUsed ∧
    (pool.heap p).proxy ∉ sessionOf pool logid ∧
    (GetOneProxy pool order logid).2 = takeProxy pool logid (sessionOf pool logid) p := by
  rw [GetOneProxy_eq] at h ⊢
  by_cases h0 : pool.proxyListActive.entries.length = 0
  · rw [if_pos h0] at h
    exact absurd h (by simp)
  · rw [if_neg h0] at h ⊢
    cases hf : order.find? (candidate pool (sessionOf pool logid)) with
    | none => rw [hf] at h; exact absurd h (by simp)
    | some e =>
      rw [hf] at h
      have hp : e.2 = p := by simpa using h
      subst hp
      have he : e ∈ pool.proxyListActive.entries := ho.mem_iff.1 (List.mem_of_find?_eq_some hf)
      have hc := List.find?_some hf
      rw [candidate_iff_addr] at hc
      exact ⟨⟨e, he, rfl⟩, hc.1, hc.2, rfl⟩

/-- C2: for every pool state and every iteration order of its active map,
`GetOneProxy(S)` succeeds if and only if some record of the active map has an
address that is in neither `proxyUsed[S]` nor `proxyActiveUsed` (the round);
when the active map is keyed by the addresses of its records, as `loadConf`
builds it, this is: some key of the active map is in neither set.  When it
succeeds the returned record is one of the active map (found there under its own
address when the map is keyed), its address was in neither set before and is in
`proxyUsed[S]` afterwards; its `Used` counter is the `int64` successor of the
old one, that is exactly one higher whenever that value fits `int64`; every
other record, the active map and the registry of all proxies are unchanged. -/
theorem GetOneProxy_spec (pool : ProxyPool) (order : List Entry) (logid : Int)
    (ho : order.Perm pool.proxyListActive.entries) :
    ((∃ p, (GetOneProxy pool order logid).1 = some p) ↔
      ∃ e ∈ pool.proxyListActive.entries,
        (pool.heap e.2).proxy ∉ sessionKeys pool logid ∧
          (pool.heap e.2).proxy ∉ pool.proxyActiveUsed.keys) ∧
    (ActiveKeyed pool →
      ((∃ p, (GetOneProxy pool order logid).1 = some p) ↔
        ∃ a ∈ pool.proxyListActive.keys,
          a ∉ sessionKeys pool logid ∧ a ∉ pool.proxyActiveUsed.keys)) ∧
    (∀ p, (GetOneProxy pool order logid).1 = some p →
      (∃ e ∈ pool.proxyListActive.entries, e.2 = p) ∧
      (ActiveKeyed pool → pool.proxyListActive.lookup (pool.heap p).proxy = some p) ∧
      (pool.heap p).proxy ∉ sessionKeys pool logid ∧
      (pool.heap p).proxy ∉ pool.proxyActiveUsed.keys ∧
      (pool.heap p).proxy ∈ sessionKeys (GetOneProxy pool order logid).2 logid ∧
      ((GetOneProxy pool order logid).2.heap p).Used = wrapInt64 ((pool.heap p).Used + 1) ∧
      (inInt64 ((pool.heap p).Used + 1) →
        ((GetOneProxy pool order logid).2.heap p).Used = (pool.heap p).Used + 1) ∧
      (∀ q, q ≠ p → (GetOneProxy pool order logid).2.heap q = pool.heap q) ∧
      (GetOneProxy pool order logid).2.proxyListActive = pool.proxyListActive ∧
      (GetOneProxy pool order logid).2.proxyListAll = pool.proxyListAll) := by
  have hgen : (∃ p, (GetOneProxy pool order logid).1 = some p) ↔
      ∃ e ∈ pool.proxyListActive.entries,
        (pool.heap e.2).proxy ∉ sessionKeys pool logid ∧
          (pool.heap e.2).proxy ∉ pool.proxyActiveUsed.keys := by
    rw [sessionKeys_eq]
    constructor
    · rintro ⟨p, hp⟩
      have hs := GetOneProxy_some_entry pool order logid p ho hp
      obtain ⟨e, he, hep⟩ := hs.1
      subst hep
      exact ⟨e, he, fun c => hs.2.2.1 (AList.mem_keys.2 c),
        fun c => hs.2.1 (AList.mem_keys.2 c)⟩
    · rintro ⟨e, he, hns, hnr⟩
      cases hr : (GetOneProxy pool order logid).1 with
      | some p => exact ⟨p, rfl⟩
      | none =>
        exfalso
        rcases (GetOneProxy_none_entries pool order logid ho).1 hr e he with h | h
        · exact hnr (AList.mem_keys.1 h)
        · exact hns (AList.mem_keys.1 h)
  refine ⟨hgen, fun hk => ?_, ?_⟩
  · rw [hgen]
    constructor
    · rintro ⟨e, he, h1, h2⟩
      rw [hk e he] at h1 h2
      exact ⟨e.1, List.mem_keys_of_mem he, h1, h2⟩
    · rintro ⟨a, ha, h1, h2⟩
      obtain ⟨p, hp⟩ := entry_of_mem_keys _ a ha
      refine ⟨⟨a, p⟩, hp, ?_, ?_⟩
      · rw [hk _ hp]; exact h1
      · rw [hk _ hp]; exact h2
  · intro p hp
    have hs := GetOneProxy_some_entry pool order logid p ho hp
    have hu : ((GetOneProxy pool order logid).2.heap p).Used
        = wrapInt64 ((pool.heap p).Used + 1) := by
      rw [hs.2.2.2]
      show ((Function.update pool.heap p _) p).Used = _
      rw [Function.update_same]
    refine ⟨hs.1, fun hk => (GetOneProxy_some pool order logid p hk ho hp).1, ?_,
      fun c => hs.2.1 (AList.mem_keys.2 c), ?_, hu, ?_, ?_, ?_, ?_⟩
    · rw [sessionKeys_eq]
      exact fun c => hs.2.2.1 (AList.mem_keys.2 c)
    · rw [sessionKeys_eq, hs.2.2.2]
      have : sessionOf (takeProxy pool logid (sessionOf pool logid) p) logid
          = (sessionOf pool logid).insert (pool.heap p).proxy p := by
        unfold sessionOf takeProxy
        simp only [AList.lookup_insert]
      rw [this]
      exact AList.mem_keys.1 ((AList.mem_insert _).2 (Or.inl rfl))
    · intro hfit
      rw [hu, wrapInt64_of_inInt64 _ hfit]
    · intro q hq
      rw [hs.2.2.2]
      show (Function.update pool.heap p _) q = _
      rw [Function.update_noteq hq]
    · exact (GetOneProxy_maps pool order logid).1
    · exact (GetOneProxy_maps pool order logid).2.1

/-- C6, amended: in every pool state (reachable or not), a successful
`GetOneProxy` clears `proxyActiveUsed` if and only if the number of addresses in
it, after the chosen address is added, is at least the number of entries of the
active map; otherwise the new `proxyActiveUsed` is the old one plus the chosen
address.  In particular it is cleared whenever it then contains every address of
the active map. -/
theorem GetOneProxy_round (pool : ProxyPool) (order : List Entry) (logid : Int) (p : Ptr)
    (h : (GetOneProxy pool order logid).1 = some p) :
    ((GetOneProxy pool order logid).2.proxyActiveUsed = ∅ ↔
      (pool.proxyActiveUsed.insert (pool.heap p).proxy "1").entries.length
        ≥ pool.proxyListActive.entries.length) ∧
    (¬ (pool.proxyActiveUsed.insert (pool.heap p).proxy "1").entries.length
        ≥ pool.proxyListActive.entries.length →
      (GetOneProxy pool order logid).2.proxyActiveUsed
        = pool.proxyActiveUsed.insert (pool.heap p).proxy "1") ∧
    ((∀ a ∈ pool.proxyListActive.keys,
        a ∈ (pool.proxyActiveUsed.insert (pool.heap p).proxy "1").keys) →
      (GetOneProxy pool order logid).2.proxyActiveUsed = ∅) := by
  have hst : (GetOneProxy pool order logid).2.proxyActiveUsed =
      if (pool.proxyActiveUsed.insert (pool.heap p).proxy "1").entries.length
        ≥ pool.proxyListActive.entries.length then ∅
      else pool.proxyActiveUsed.insert (pool.heap p).proxy "1" := by
    rw [GetOneProxy_eq] at h ⊢
    by_cases h0 : pool.proxyListActive.entries.length = 0
    · rw [if_pos h0] at h
      exact absurd h (by simp)
    · rw [if_neg h0] at h ⊢
      cases hf : order.find? (candidate pool (sessionOf pool logid)) with
      | none => rw [hf] at h; exact absurd h (by simp)
      | some e =>
        rw [hf] at h
        have hp : e.2 = p := by simpa using h
        subst hp
        rfl
  have hne : pool.proxyActiveUsed.insert (pool.heap p).proxy "1" ≠ ∅ := by
    intro c
    have : (pool.heap p).proxy ∈ pool.proxyActiveUsed.insert (pool.heap p).proxy "1" :=
      (AList.mem_insert _).2 (Or.inl rfl)
    rw [c] at this
    exact AList.not_mem_empty _ this
  have hclear : (GetOneProxy pool order logid).2.proxyActiveUsed = ∅ ↔
      (pool.proxyActiveUsed.insert (pool.heap p).proxy "1").entries.length
        ≥ pool.proxyListActive.entries.length := by
    rw [hst]
    constructor
    · intro hc
      by_contra hlt
      rw [if_neg hlt] at hc
      exact hne hc
    · intro hge
      rw [if_pos hge]
  refine ⟨hclear, fun hlt => by rw [hst, if_neg hlt], fun hcov => hclear.2 ?_⟩
  have hsub : pool.proxyListActive.keys ⊆
      (pool.proxyActiveUsed.insert (pool.heap p).proxy "1").keys := hcov
  have := (List.subperm_of_subset pool.proxyListActive.keys_nodup hsub).length_le
  simpa [AList.keys, List.keys] using this


/-- C2, witness: in the sample pool with two active proxies a first allocation
finds a record whose address is in neither set. -/
theorem GetOneProxy_spec_witness :
    List.Perm [entryB, entryA] activePoolAB.proxyListActive.entries ∧
    ∃ e ∈ activePoolAB.proxyListActive.entries,
      (activePoolAB.heap e.2).proxy ∉ sessionKeys activePoolAB 1 ∧
        (activePoolAB.heap e.2).proxy ∉ activePoolAB.proxyActiveUsed.keys :=
  ⟨by decide,
    (GetOneProxy_spec activePoolAB [entryB, entryA] 1 (by decide)).1.1 ⟨1, by decide⟩⟩

/-- C6, counterexample: after the three sample proxies became active, the first
was allocated and then removed from the active map, the next allocation (of the
second proxy) clears `proxyActiveUsed` although the third proxy is active and is
not in `proxyActiveUsed` plus the chosen address. -/
theorem GetOneProxy_round_stale :
    validRun samplePool opsStale ∧
    List.Perm [entryB, entryC] (run samplePool opsStale).proxyListActive.entries ∧
    (GetOneProxy (run samplePool opsStale) [entryB, entryC] 2).1 = some 1 ∧
    (GetOneProxy (run samplePool opsStale) [entryB, entryC] 2).2.proxyActiveUsed.keys = [] ∧
    entryC.1 ∈ (run samplePool opsStale).proxyListActive.keys ∧
    entryC.1 ∉ ((run samplePool opsStale).proxyActiveUsed.insert entryB.1 "1").keys := by
  decide

/-- C6, witness of the amended statement on the same run. -/
theorem GetOneProxy_round_witness :
    (GetOneProxy (run samplePool opsStale) [entryB, entryC] 2).1 = some 1 ∧
    ((GetOneProxy (run samplePool opsStale) [entryB, entryC] 2).2.proxyActiveUsed = ∅ ↔
      ((run samplePool opsStale).proxyActiveUsed.insert
          ((run samplePool opsStale).heap 1).proxy "1").entries.length
        ≥ (run samplePool opsStale).proxyListActive.entries.length) :=
  ⟨by decide,
    (GetOneProxy_round (run samplePool opsStale) [entryB, entryC] 2 1 (by decide)).1⟩

/-! ### Runs of `GetOneProxy` and `CleanSessionProxy` over a fixed active map -/

theorem GetOneProxy_none_state (pool : ProxyPool) (order : List Entry) (logid : Int)
    (h : (GetOneProxy pool order logid).1 = none) :
    (GetOneProxy pool order logid).2 =
      if pool.proxyListActive.entries.length = 0 then pool else ensureSession pool logid := by
  rw [GetOneProxy_eq] at h ⊢
  by_cases h0 : pool.proxyListActive.entries.length = 0
  · rw [if_pos h0, if_pos h0]
  · rw [if_neg h0] at h ⊢
    rw [if_neg h0]
    cases hf : order.find? (candidate pool (sessionOf pool logid)) with
    | none => rfl
    | some e => rw [hf] at h; exact absurd h (by simp)

theorem GetOneProxy_none_round (pool : ProxyPool) (order : List Entry) (logid : Int)
    (h : (GetOneProxy pool order logid).1 = none) :
    (GetOneProxy pool order logid).2.proxyActiveUsed = pool.proxyActiveUsed ∧
    (GetOneProxy pool order logid).2.heap = pool.heap := by
  rw [GetOneProxy_none_state pool order logid h]
  split
  · exact ⟨rfl, rfl⟩
  · exact ⟨(ensureSession_fields pool logid).2.2.2.1, (ensureSession_fields pool logid).1⟩

theorem step_session_frame (pool : ProxyPool) (op : Op) (hs : op.isSession = true) :
    (step pool op).proxyListActive = pool.proxyListActive ∧
    ∀ p, ((step pool op).heap p).proxy = (pool.heap p).proxy := by
  cases op with
  | addActive u => exact absurd hs (by simp [Op.isSession])
  | removeActive u => exact absurd hs (by simp [Op.isSession])
  | testAddActive u now ok ms => exact absurd hs (by simp [Op.isSession])
  | getOne logid order =>
    have hm := GetOneProxy_maps pool order logid
    exact ⟨hm.1, hm.2.2.2⟩
  | clean logid =>
    show (CleanSessionProxy pool logid).proxyListActive = _ ∧
      ∀ p, ((CleanSessionProxy pool logid).heap p).proxy = _
    rw [CleanSessionProxy_eq]
    exact ⟨rfl, fun _ => rfl⟩

theorem ActiveKeyed_of_frame (pool pool2 : ProxyPool) (hk : ActiveKeyed pool)
    (ha : pool2.proxyListActive = pool.proxyListActive)
    (hh : ∀ p, (pool2.heap p).proxy = (pool.heap p).proxy) : ActiveKeyed pool2 := by
  intro e he
  rw [ha] at he
  rw [hh]
  exact hk e he

theorem GetOneProxy_RoundInv (pool : ProxyPool) (order : List Entry) (logid : Int)
    (hi : RoundInv pool) (ho : order.Perm pool.proxyListActive.entries) :
    RoundInv (GetOneProxy pool order logid).2 := by
  have hm := GetOneProxy_maps pool order logid
  have hk2 : ActiveKeyed (GetOneProxy pool order logid).2 :=
    ActiveKeyed_of_frame pool _ hi.1 hm.1 hm.2.2.2
  refine ⟨hk2, ?_⟩
  rw [hm.1]
  cases hr : (GetOneProxy pool order logid).1 with
  | none =>
    rw [(GetOneProxy_none_round pool order logid hr).1]
    exact hi.2
  | some p =>
    have hs := GetOneProxy_some pool order logid p hi.1 ho hr
    have hmem : (pool.heap p).proxy ∈ pool.proxyListActive.keys := by
      apply AList.mem_keys.1
      rw [← AList.lookup_isSome, hs.1]
      rfl
    have hst : (GetOneProxy pool order logid).2.proxyActiveUsed =
        if (pool.proxyActiveUsed.insert (pool.heap p).proxy "1").entries.length
          ≥ pool.proxyListActive.entries.length then ∅
        else pool.proxyActiveUsed.insert (pool.heap p).proxy "1" := by
      rw [hs.2.2.2]; rfl
    rw [hst]
    split
    · refine ⟨by simp, Or.inl ?_⟩
      have : pool.proxyListActive.keys.length ≠ 0 := by
        intro c
        rw [List.length_eq_zero.1 c] at hmem
        simp at hmem
      have h2 : pool.proxyListActive.keys.length = pool.proxyListActive.entries.length := by
        simp [AList.keys, List.keys]
      simp only [AList.empty_entries, List.length_nil]
      omega
    · rename_i hlt
      refine ⟨?_, Or.inl (by omega)⟩
      intro a ha
      rw [AList.keys_insert] at ha
      rcases List.mem_cons.1 ha with h | h
      · rw [h]; exact hmem
      · exact hi.2.1 a (List.mem_of_mem_erase h)

theorem step_RoundInv (pool : ProxyPool) (op : Op) (hs : op.isSession = true)
    (hi : RoundInv pool) (ho : op.orderOk pool) : RoundInv (step pool op) := by
  cases op with
  | addActive u => exact absurd hs (by simp [Op.isSession])
  | removeActive u => exact absurd hs (by simp [Op.isSession])
  | testAddActive u now ok ms => exact absurd hs (by simp [Op.isSession])
  | getOne logid order => exact GetOneProxy_RoundInv pool order logid hi ho
  | clean logid =>
    show RoundInv (CleanSessionProxy pool logid)
    rw [CleanSessionProxy_eq]
    exact hi

theorem run_RoundInv (ops : List Op) : ∀ pool : ProxyPool,
    (∀ op ∈ ops, op.isSession = true) → validRun pool ops → RoundInv pool →
    RoundInv (run pool ops) ∧
    (run pool ops).proxyListActive = pool.proxyListActive ∧
    ∀ p, ((run pool ops).heap p).proxy = (pool.heap p).proxy := by
  induction ops with
  | nil => exact fun pool _ _ hi => ⟨hi, rfl, fun _ => rfl⟩
  | cons op ops ih =>
    intro pool hs hv hi
    have hs1 : op.isSession = true := hs op (List.mem_cons_self _ _)
    have h1 := step_RoundInv pool op hs1 hi hv.1
    have hf := step_session_frame pool op hs1
    have h2 := ih (step pool op) (fun o ho => hs o (List.mem_cons_of_mem _ ho)) hv.2 h1
    exact ⟨h2.1, h2.2.1.trans hf.1, fun p => (h2.2.2 p).trans (hf.2 p)⟩

theorem RoundInv_start (pool : ProxyPool) (hk : ActiveKeyed pool)
    (hround : pool.proxyActiveUsed = ∅) : RoundInv pool := by
  refine ⟨hk, by rw [hround]; simp, ?_⟩
  rw [hround]
  cases h : pool.proxyListActive.entries with
  | nil => exact Or.inr rfl
  | cons e l => exact Or.inl (by simp)

theorem exists_not_mem_of_length_lt (l1 l2 : List String) (hn : l1.Nodup)
    (hlt : l2.length < l1.length) : ∃ a ∈ l1, a ∉ l2 := by
  by_contra hcon
  push_neg at hcon
  have := (List.subperm_of_subset hn hcon).length_le
  omega

theorem keys_length {β : Type} (m : AList (fun _ : String => β)) :
    m.keys.length = m.entries.length := by
  simp [AList.keys, List.keys]

/-- C4, amended: with the active map unchanged since the pool started with an
empty `proxyActiveUsed` and keyed by the addresses of its records, after any
sequence of `GetOneProxy` and `CleanSessionProxy` calls by arbitrary sessions,
`GetOneProxy(S)` returns the "no active proxy" error if and only if every active
address is in `proxyUsed[S]` or in `proxyActiveUsed` (the round).  In particular
it fails when the active map is empty or every active address has already been
allocated to `S`, and it succeeds when the active map is not empty and `S` holds
no address. -/
theorem GetOneProxy_error_iff (pool : ProxyPool) (ops : List Op)
    (hround : pool.proxyActiveUsed = ∅) (hk : ActiveKeyed pool)
    (hs : ∀ op ∈ ops, op.isSession = true) (hv : validRun pool ops)
    (order : List Entry) (ho : order.Perm (run pool ops).proxyListActive.entries)
    (logid : Int) :
    (run pool ops).proxyListActive = pool.proxyListActive ∧
    ((GetOneProxy (run pool ops) order logid).1 = none ↔
      ∀ a ∈ pool.proxyListActive.keys,
        a ∈ sessionKeys (run pool ops) logid ∨ a ∈ (run pool ops).proxyActiveUsed.keys) ∧
    ((pool.proxyListActive.keys = [] ∨
        ∀ a ∈ pool.proxyListActive.keys, a ∈ sessionKeys (run pool ops) logid) →
      (GetOneProxy (run pool ops) order logid).1 = none) ∧
    (pool.proxyListActive.keys ≠ [] → sessionKeys (run pool ops) logid = [] →
      ∃ p, (GetOneProxy (run pool ops) order logid).1 = some p) := by
  have hr := run_RoundInv ops pool hs hv (RoundInv_start pool hk hround)
  have hiff : (GetOneProxy (run pool ops) order logid).1 = none ↔
      ∀ a ∈ pool.proxyListActive.keys,
        a ∈ sessionKeys (run pool ops) logid ∨ a ∈ (run pool ops).proxyActiveUsed.keys := by
    rw [GetOneProxy_none_iff _ order logid hr.1.1 ho, hr.2.1, sessionKeys_eq]
    constructor
    · intro h a ha
      rcases h a ha with h1 | h1
      · exact Or.inr (AList.mem_keys.1 h1)
      · exact Or.inl (AList.mem_keys.1 h1)
    · intro h a ha
      rcases h a ha with h1 | h1
      · exact Or.inr (AList.mem_keys.2 h1)
      · exact Or.inl (AList.mem_keys.2 h1)
  refine ⟨hr.2.1, hiff, ?_, ?_⟩
  · rintro (h | h)
    · apply hiff.2
      rw [h]
      simp
    · exact hiff.2 (fun a ha => Or.inl (h a ha))
  · intro hne hempty
    cases hres : (GetOneProxy (run pool ops) order logid).1 with
    | some p => exact ⟨p, rfl⟩
    | none =>
      exfalso
      have hall := hiff.1 hres
      rw [hempty] at hall
      have hlen : (run pool ops).proxyActiveUsed.entries.length
          < pool.proxyListActive.entries.length := by
        rcases hr.1.2.2 with h | h
        · rw [hr.2.1] at h; exact h
        · rw [hr.2.1] at h
          exfalso
          apply hne
          simp [AList.keys, h]
      rw [← keys_length, ← keys_length] at hlen
      obtain ⟨a, ha, hna⟩ := exists_not_mem_of_length_lt _ _ pool.proxyListActive.keys_nodup hlen
      rcases hall a ha with h | h
      · simp at h
      · exact hna h


/-- C4, counterexample: with two active proxies and a fixed active map, after
session 1 was given the second proxy, session 2 the first and session 3 the
first again, `GetOneProxy(1)` returns the error although the active map is not
empty and the first proxy, which is active, was never given to session 1. -/
theorem GetOneProxy_error_with_free_address :
    activePoolAB.proxyActiveUsed.keys = [] ∧
    validRun activePoolAB opsRound ∧
    (∀ op ∈ opsRound, op.isSession = true) ∧
    (run activePoolAB opsRound).proxyListActive.entries
      = activePoolAB.proxyListActive.entries ∧
    (GetOneProxy (run activePoolAB opsRound) [entryA, entryB] 1).1 = none ∧
    (run activePoolAB opsRound).proxyListActive.keys ≠ [] ∧
    entryA.1 ∈ (run activePoolAB opsRound).proxyListActive.keys ∧
    entryA.1 ∉ sessionKeys (run activePoolAB opsRound) 1 := by
  decide

/-- C4, witness of the amended statement on the same run. -/
theorem GetOneProxy_error_iff_witness :
    (GetOneProxy (run activePoolAB opsRound) [entryA, entryB] 1).1 = none ↔
      ∀ a ∈ activePoolAB.proxyListActive.keys,
        a ∈ sessionKeys (run activePoolAB opsRound) 1 ∨
          a ∈ (run activePoolAB opsRound).proxyActiveUsed.keys :=
  (GetOneProxy_error_iff activePoolAB opsRound rfl (by decide) (by decide) (by decide)
    [entryA, entryB] (by decide) 1).2.1

/-- C5, the failing run: both sample proxies become active, session 1 is given the
first one and the second one is removed from the active map.  The active map
then holds the first proxy, session 2 holds nothing, and `GetOneProxy(2)`
returns the "no active proxy" error. -/
theorem GetOneProxy_stuck_after_remove :
    validRun samplePoolAB opsShrink ∧
    (run samplePoolAB opsShrink).proxyListActive.keys = [entryA.1] ∧
    sessionKeys (run samplePoolAB opsShrink) 2 = [] ∧
    List.Perm [entryA] (run samplePoolAB opsShrink).proxyListActive.entries ∧
    (GetOneProxy (run samplePoolAB opsShrink) [entryA] 2).1 = none := by
  decide

/-- C10, witness: the invariant on a run of the sample pool with every kind of
call. -/
theorem registry_invariant_witness :
    samplePool.proxyListActive = ∅ ∧
    (∀ k p, (run samplePool opsMixed).proxyListActive.lookup k = some p →
      (run samplePool opsMixed).proxyListAll.lookup k = some p) ∧
    (run samplePool opsMixed).proxyListAll = samplePool.proxyListAll :=
  ⟨rfl, (registry_invariant samplePool opsMixed rfl).1,
    (registry_invariant samplePool opsMixed rfl).2.2⟩

/-! ### Use counts -/

theorem entry_snd_eq (m : ProxyMap) (e : Entry) (p : Ptr) (he : e ∈ m.entries)
    (hl : m.lookup e.1 = some p) : e.2 = p := by
  have h1 : e.2 ∈ m.lookup e.1 := AList.mem_lookup_iff.2 (by cases e; exact he)
  rw [hl] at h1
  exact (Option.mem_some_iff.1 h1).symm

theorem GetOneProxy_CountInv (pool : ProxyPool) (order : List Entry) (logid : Int) (n : Nat)
    (hi : RoundInv pool) (hc : CountInv n pool) (ho : order.Perm pool.proxyListActive.entries)
    (hn : (n : Int) + 1 < 2 ^ 63) :
    CountInv (n + 1) (GetOneProxy pool order logid).2 := by
  obtain ⟨k, hk0, hkn, hcnt⟩ := hc
  have hm := GetOneProxy_maps pool order logid
  cases hr : (GetOneProxy pool order logid).1 with
  | none =>
    have h := GetOneProxy_none_round pool order logid hr
    refine ⟨k, hk0, by push_cast; omega, ?_⟩
    rw [hm.1, h.1, h.2]
    exact hcnt
  | some p =>
    have hs := GetOneProxy_some pool order logid p hi.1 ho hr
    have hpe : (⟨(pool.heap p).proxy, p⟩ : Entry) ∈ pool.proxyListActive.entries :=
      AList.mem_lookup_iff.1 (by rw [hs.1]; exact Option.mem_some_iff.2 rfl)
    have hup : (pool.heap p).Used = k := by
      have := hcnt _ hpe
      rw [if_neg hs.2.1] at this
      simpa using this
    have hheap : (GetOneProxy pool order logid).2.heap = Function.update pool.heap p
        { pool.heap p with Used := wrapInt64 ((pool.heap p).Used + 1) } := by
      rw [hs.2.2.2]; rfl
    have hwrap : wrapInt64 ((pool.heap p).Used + 1) = k + 1 := by
      rw [hup]
      apply wrapInt64_of_inInt64
      unfold inInt64
      constructor <;> omega
    have hst : (GetOneProxy pool order logid).2.proxyActiveUsed =
        if (pool.proxyActiveUsed.insert (pool.heap p).proxy "1").entries.length
          ≥ pool.proxyListActive.entries.length then ∅
        else pool.proxyActiveUsed.insert (pool.heap p).proxy "1" := by
      rw [hs.2.2.2]; rfl
    -- the count of every active record after the call
    have hnew : ∀ e ∈ pool.proxyListActive.entries,
        ((GetOneProxy pool order logid).2.heap e.2).Used =
          k + (if e.1 ∈ pool.proxyActiveUsed.insert (pool.heap p).proxy "1" then 1 else 0) := by
      intro e he
      rw [hheap]
      by_cases hep : e.2 = p
      · have hkey : e.1 = (pool.heap p).proxy := by rw [← hep]; exact (hi.1 e he).symm
        rw [hep, Function.update_same, if_pos ((AList.mem_insert _).2 (Or.inl hkey))]
        exact hwrap
      · have hkey : e.1 ≠ (pool.heap p).proxy := by
          intro c
          apply hep
          apply entry_snd_eq _ e p he
          rw [c]; exact hs.1
        rw [Function.update_noteq hep, hcnt e he]
        congr 1
        by_cases hmem : e.1 ∈ pool.proxyActiveUsed
        · rw [if_pos hmem, if_pos ((AList.mem_insert _).2 (Or.inr hmem))]
        · rw [if_neg hmem, if_neg]
          intro c
          rcases (AList.mem_insert _).1 c with h | h
          · exact hkey h
          · exact hmem h
    by_cases hge : (pool.proxyActiveUsed.insert (pool.heap p).proxy "1").entries.length
        ≥ pool.proxyListActive.entries.length
    · -- the round is complete: every active address is in it
      refine ⟨k + 1, by omega, by push_cast; omega, ?_⟩
      rw [hm.1, hst, if_pos hge]
      intro e he
      rw [hnew e he, if_neg (AList.not_mem_empty _)]
      have hsub : (pool.proxyActiveUsed.insert (pool.heap p).proxy "1").keys ⊆
          pool.proxyListActive.keys := by
        intro a ha
        rcases (AList.mem_insert _).1 (AList.mem_keys.2 ha) with h | h
        · rw [h]; exact List.mem_keys_of_mem hpe
        · exact hi.2.1 a (AList.mem_keys.1 h)
      have hperm := (List.subperm_of_subset (AList.keys_nodup _) hsub).perm_of_length_le
        (by rw [keys_length, keys_length]; exact hge)
      have : e.1 ∈ (pool.proxyActiveUsed.insert (pool.heap p).proxy "1").keys :=
        hperm.mem_iff.2 (List.mem_keys_of_mem he)
      rw [if_pos (AList.mem_keys.2 this)]
      ring
    · refine ⟨k, hk0, by push_cast; omega, ?_⟩
      rw [hm.1, hst, if_neg hge]
      exact hnew

theorem run_CountInv (ops : List Op) : ∀ (pool : ProxyPool) (n : Nat),
    (∀ op ∈ ops, op.isSession = true) → validRun pool ops → RoundInv pool →
    CountInv n pool → ((n + ops.length : Nat) : Int) < 2 ^ 63 →
    CountInv (n + ops.length) (run pool ops) := by
  induction ops with
  | nil => exact fun pool n _ _ _ hc _ => hc
  | cons op ops ih =>
    intro pool n hs hv hi hc hlen
    have hs1 : op.isSession = true := hs op (List.mem_cons_self _ _)
    have h1 := step_RoundInv pool op hs1 hi hv.1
    simp only [List.length_cons] at hlen
    have hc1 : CountInv (n + 1) (step pool op) := by
      cases op with
      | addActive u => exact absurd hs1 (by simp [Op.isSession])
      | removeActive u => exact absurd hs1 (by simp [Op.isSession])
      | testAddActive u now ok ms => exact absurd hs1 (by simp [Op.isSession])
      | getOne logid order =>
        exact GetOneProxy_CountInv pool order logid n hi hc hv.1 (by push_cast at hlen ⊢; omega)
      | clean logid =>
        show CountInv (n + 1) (CleanSessionProxy pool logid)
        rw [CleanSessionProxy_eq]
        obtain ⟨k, hk0, hkn, hcnt⟩ := hc
        exact ⟨k, hk0, by push_cast; omega, hcnt⟩
    have h2 := ih (step pool op) (n + 1) (fun o ho => hs o (List.mem_cons_of_mem _ ho)) hv.2 h1
      hc1 (by push_cast at hlen ⊢; omega)
    have e : n + (op :: ops).length = n + 1 + ops.length := by
      simp only [List.length_cons]; omega
    rw [e]
    exact h2

/-- C3: round fairness.  Start from a pool with empty `proxyActiveUsed`, an
active map keyed by the addresses of its records and all use counts of active
records 0, and make any sequence (shorter than 2^63, so that the `int64`
counters cannot wrap) of `GetOneProxy` and `CleanSessionProxy` calls by
arbitrary sessions, under every iteration order.  Then the active map is
unchanged, the `Used` counters of any two active records differ by at most 1:
for some `k` every active record was handed out `k` times, plus once more when
its address is in the current round; and the next allocation returns a record
whose counter is minimal among the active ones, so no active address is handed
out a further time before every active address has caught up. -/
theorem useCount_fair (pool : ProxyPool) (ops : List Op)
    (hround : pool.proxyActiveUsed = ∅) (hk : ActiveKeyed pool)
    (hzero : ∀ e ∈ pool.proxyListActive.entries, (pool.heap e.2).Used = 0)
    (hs : ∀ op ∈ ops, op.isSession = true) (hv : validRun pool ops)
    (hlen : (ops.length : Int) < 2 ^ 63) :
    (run pool ops).proxyListActive = pool.proxyListActive ∧
    (∀ e1 ∈ pool.proxyListActive.entries, ∀ e2 ∈ pool.proxyListActive.entries,
      |((run pool ops).heap e1.2).Used - ((run pool ops).heap e2.2).Used| ≤ 1) ∧
    (∃ k : Int, 0 ≤ k ∧ ∀ e ∈ pool.proxyListActive.entries,
      ((run pool ops).heap e.2).Used
        = k + (if e.1 ∈ (run pool ops).proxyActiveUsed then 1 else 0)) ∧
    (∀ order logid p, order.Perm pool.proxyListActive.entries →
      (GetOneProxy (run pool ops) order logid).1 = some p →
      ∀ e ∈ pool.proxyListActive.entries,
        ((run pool ops).heap p).Used ≤ ((run pool ops).heap e.2).Used) := by
  have hi0 := RoundInv_start pool hk hround
  have hr := run_RoundInv ops pool hs hv hi0
  have hc0 : CountInv 0 pool := by
    refine ⟨0, le_refl _, by simp, fun e he => ?_⟩
    rw [hzero e he, hround, if_neg (AList.not_mem_empty _)]
    simp
  have hc := run_CountInv ops pool 0 hs hv hi0 hc0 (by simpa using hlen)
  obtain ⟨k, hk0, _, hcnt⟩ := hc
  rw [hr.2.1] at hcnt
  refine ⟨hr.2.1, ?_, ⟨k, hk0, hcnt⟩, ?_⟩
  · intro e1 h1 e2 h2
    rw [hcnt e1 h1, hcnt e2 h2, abs_le]
    constructor <;> split <;> split <;> omega
  · intro order logid p ho hp e he
    have hs2 := GetOneProxy_some (run pool ops) order logid p hr.1.1 (by rw [hr.2.1]; exact ho) hp
    have hpe : (⟨((run pool ops).heap p).proxy, p⟩ : Entry) ∈ pool.proxyListActive.entries := by
      rw [← hr.2.1]
      exact AList.mem_lookup_iff.1 (by rw [hs2.1]; exact Option.mem_some_iff.2 rfl)
    have := hcnt _ hpe
    rw [if_neg hs2.2.1] at this
    simp only at this
    rw [this, hcnt e he]
    split <;> omega


/-- C3, witness: the counters of the two active sample proxies after three
allocations by three sessions. -/
theorem useCount_fair_witness :
    |((run activePoolAB opsRound).heap entryA.2).Used
      - ((run activePoolAB opsRound).heap entryB.2).Used| ≤ 1 :=
  (useCount_fair activePoolAB opsRound rfl (by decide) (by decide) (by decide) (by decide)
    (by decide)).2.1 entryA (by decide) entryB (by decide)

/-! ### Consecutive allocations of one session -/

theorem sessionOf_takeProxy (pool : ProxyPool) (logid : Int) (s : ProxyMap) (p : Ptr) :
    sessionOf (takeProxy pool logid s p) logid = s.insert (pool.heap p).proxy p := by
  unfold sessionOf takeProxy
  simp only [AList.lookup_insert]

theorem GetManyProxy_aux : ∀ (orders : List (List Entry)) (pool : ProxyPool) (logid : Int),
    RoundInv pool →
    (∀ a ∈ sessionKeys pool logid, a ∈ pool.proxyListActive.keys) →
    ((∀ a ∈ sessionKeys pool logid, a ∈ pool.proxyActiveUsed.keys) ∨
      (∀ a ∈ pool.proxyActiveUsed.keys, a ∈ sessionKeys pool logid)) →
    (∀ o ∈ orders, o.Perm pool.proxyListActive.entries) →
    orders.length + (sessionKeys pool logid).length
      = pool.proxyListActive.entries.length + 1 →
    ∃ ps : List Ptr, (GetManyProxy pool logid orders).1 = ps.map some ++ [none] ∧
      ps.length + 1 = orders.length ∧
      (ps.map (fun p => (pool.heap p).proxy)).Nodup ∧
      ∀ p ∈ ps, pool.proxyListActive.lookup (pool.heap p).proxy = some p ∧
        (pool.heap p).proxy ∉ sessionKeys pool logid := by
  intro orders
  induction orders with
  | nil =>
    intro pool logid hi hsub _ _ hlen
    exfalso
    have hnd : (sessionKeys pool logid).Nodup := by
      rw [sessionKeys_eq]; exact AList.keys_nodup _
    have := (List.subperm_of_subset hnd hsub).length_le
    rw [keys_length] at this
    simp only [List.length_nil] at hlen
    omega
  | cons o rest ih =>
    intro pool logid hi hsub hdich hord hlen
    have hnd : (sessionKeys pool logid).Nodup := by
      rw [sessionKeys_eq]; exact AList.keys_nodup _
    have hsp := List.subperm_of_subset hnd hsub
    have hle := hsp.length_le
    rw [keys_length] at hle
    have ho : o.Perm pool.proxyListActive.entries := hord o (List.mem_cons_self _ _)
    have hm := GetOneProxy_maps pool o logid
    simp only [List.length_cons] at hlen
    cases hr : (GetOneProxy pool o logid).1 with
    | none =>
      -- the session holds every active address: this is the last call
      have hall := (GetOneProxy_none_iff pool o logid hi.1 ho).1 hr
      have hfull : (sessionKeys pool logid).length = pool.proxyListActive.entries.length := by
        by_contra hne
        have hlt : (sessionKeys pool logid).length < pool.proxyListActive.keys.length := by
          rw [keys_length]; omega
        rcases hdich with hd | hd
        · have hlt2 : pool.proxyActiveUsed.keys.length < pool.proxyListActive.keys.length := by
            rcases hi.2.2 with h | h
            · rw [keys_length, keys_length]; exact h
            · rw [keys_length, h] at hlt; simp at hlt
          obtain ⟨a, ha, hna⟩ := exists_not_mem_of_length_lt _ _
            pool.proxyListActive.keys_nodup hlt2
          rcases hall a ha with h | h
          · exact hna (AList.mem_keys.1 h)
          · rw [sessionKeys_eq] at hd
            exact hna (hd a (AList.mem_keys.1 h))
        · obtain ⟨a, ha, hna⟩ := exists_not_mem_of_length_lt _ _
            pool.proxyListActive.keys_nodup hlt
          rcases hall a ha with h | h
          · exact hna (hd a (AList.mem_keys.1 h))
          · rw [sessionKeys_eq] at hna
            exact hna (AList.mem_keys.1 h)
      have hrest : rest = [] := List.length_eq_zero.1 (by omega)
      subst hrest
      refine ⟨[], ?_, by simp, by simp, by simp⟩
      simp [GetManyProxy, hr]
    | some p =>
      have hs := GetOneProxy_some pool o logid p hi.1 ho hr
      have hi2 : RoundInv (GetOneProxy pool o logid).2 := GetOneProxy_RoundInv pool o logid hi ho
      have hmem : (pool.heap p).proxy ∈ pool.proxyListActive.keys := by
        apply AList.mem_keys.1
        rw [← AList.lookup_isSome, hs.1]
        rfl
      have hkeys : ∀ x, x ∈ sessionKeys (GetOneProxy pool o logid).2 logid ↔
          x = (pool.heap p).proxy ∨ x ∈ sessionKeys pool logid := by
        intro x
        rw [sessionKeys_eq, sessionKeys_eq, hs.2.2.2, sessionOf_takeProxy]
        rw [← AList.mem_keys, AList.mem_insert, AList.mem_keys]
      have hklen : (sessionKeys (GetOneProxy pool o logid).2 logid).length
          = (sessionKeys pool logid).length + 1 := by
        rw [sessionKeys_eq, sessionKeys_eq, hs.2.2.2, sessionOf_takeProxy, AList.keys_insert,
          List.erase_of_not_mem (fun c => hs.2.2.1 (AList.mem_keys.2 c))]
        rfl
      have hst : (GetOneProxy pool o logid).2.proxyActiveUsed =
          if (pool.proxyActiveUsed.insert (pool.heap p).proxy "1").entries.length
            ≥ pool.proxyListActive.entries.length then ∅
          else pool.proxyActiveUsed.insert (pool.heap p).proxy "1" := by
        rw [hs.2.2.2]; rfl
      have hsub2 : ∀ a ∈ sessionKeys (GetOneProxy pool o logid).2 logid,
          a ∈ (GetOneProxy pool o logid).2.proxyListActive.keys := by
        intro a ha
        rw [hm.1]
        rcases (hkeys a).1 ha with h | h
        · rw [h]; exact hmem
        · exact hsub a h
      have hdich2 : (∀ a ∈ sessionKeys (GetOneProxy pool o logid).2 logid,
            a ∈ (GetOneProxy pool o logid).2.proxyActiveUsed.keys) ∨
          (∀ a ∈ (GetOneProxy pool o logid).2.proxyActiveUsed.keys,
            a ∈ sessionKeys (GetOneProxy pool o logid).2 logid) := by
        rw [hst]
        split
        · exact Or.inr (by simp)
        · rcases hdich with hd | hd
          · left
            intro a ha
            apply AList.mem_keys.1
            rw [AList.mem_insert]
            rcases (hkeys a).1 ha with h | h
            · exact Or.inl h
            · exact Or.inr (AList.mem_keys.2 (hd a h))
          · right
            intro a ha
            rw [hkeys]
            rcases (AList.mem_insert _).1 (AList.mem_keys.2 ha) with h | h
            · exact Or.inl h
            · exact Or.inr (hd a (AList.mem_keys.1 h))
      have hord2 : ∀ o2 ∈ rest, o2.Perm (GetOneProxy pool o logid).2.proxyListActive.entries := by
        intro o2 ho2
        rw [hm.1]
        exact hord o2 (List.mem_cons_of_mem _ ho2)
      have hlen2 : rest.length + (sessionKeys (GetOneProxy pool o logid).2 logid).length
          = (GetOneProxy pool o logid).2.proxyListActive.entries.length + 1 := by
        rw [hklen, hm.1]; omega
      obtain ⟨ps, hres, hpl, hpn, hpp⟩ :=
        ih (GetOneProxy pool o logid).2 logid hi2 hsub2 hdich2 hord2 hlen2
      have haddr : ∀ q, ((GetOneProxy pool o logid).2.heap q).proxy = (pool.heap q).proxy :=
        hm.2.2.2
      refine ⟨p :: ps, ?_, by simp only [List.length_cons]; omega, ?_, ?_⟩
      · simp only [GetManyProxy, hr, hres, List.map_cons, List.cons_append]
      · rw [List.map_cons, List.nodup_cons]
        constructor
        · intro hc
          obtain ⟨q, hq, hqa⟩ := List.mem_map.1 hc
          have := (hpp q hq).2
          rw [haddr, hkeys] at this
          exact this (Or.inl hqa)
        · have : ps.map (fun q => (pool.heap q).proxy)
              = ps.map (fun q => ((GetOneProxy pool o logid).2.heap q).proxy) := by
            apply List.map_congr_left
            intro q _
            exact (haddr q).symm
          rw [this]
          exact hpn
      · intro q hq
        rcases List.mem_cons.1 hq with h | h
        · rw [h]
          refine ⟨hs.1, ?_⟩
          rw [sessionKeys_eq]
          exact fun c => hs.2.2.1 (AList.mem_keys.2 c)
        · have h2 := hpp q h
          rw [haddr, hm.1] at h2
          refine ⟨h2.1, fun c => h2.2 ?_⟩
          rw [hkeys]
          exact Or.inr c

/-- C1: let the pool start with an empty `proxyActiveUsed` and an active map of
`N` entries keyed by the addresses of its records, and let it run through any
sequence of `GetOneProxy` and `CleanSessionProxy` calls (the active map stays
fixed).  For every session `S` that has no `proxyUsed` entry in the state
reached, `N + 1` consecutive `GetOneProxy(S)` calls, under every choice of
iteration orders, give `N` successes followed by the "no active proxy" error;
the `N` records returned are active and their addresses are pairwise
distinct. -/
theorem GetOneProxy_consecutive (pool : ProxyPool) (ops : List Op)
    (hround : pool.proxyActiveUsed = ∅) (hk : ActiveKeyed pool)
    (hs : ∀ op ∈ ops, op.isSession = true) (hv : validRun pool ops)
    (logid : Int) (hnew : (run pool ops).proxyUsed.lookup logid = none)
    (orders : List (List Entry))
    (hlen : orders.length = pool.proxyListActive.entries.length + 1)
    (hord : ∀ o ∈ orders, o.Perm pool.proxyListActive.entries) :
    (run pool ops).proxyListActive = pool.proxyListActive ∧
    ∃ ps : List Ptr,
      (GetManyProxy (run pool ops) logid orders).1 = ps.map some ++ [none] ∧
      ps.length = pool.proxyListActive.entries.length ∧
      (ps.map (fun p => (pool.heap p).proxy)).Nodup ∧
      ∀ p ∈ ps, pool.proxyListActive.lookup (pool.heap p).proxy = some p := by
  have hr := run_RoundInv ops pool hs hv (RoundInv_start pool hk hround)
  have hempty : sessionKeys (run pool ops) logid = [] := by
    unfold sessionKeys; rw [hnew]
  obtain ⟨ps, hres, hpl, hpn, hpp⟩ := GetManyProxy_aux orders (run pool ops) logid hr.1
    (by rw [hempty]; simp) (Or.inl (by rw [hempty]; simp))
    (by rw [hr.2.1]; exact hord) (by rw [hempty, hr.2.1, hlen]; rfl)
  refine ⟨hr.2.1, ps, hres, by omega, ?_, ?_⟩
  · have : ps.map (fun q => (pool.heap q).proxy)
        = ps.map (fun q => ((run pool ops).heap q).proxy) := by
      apply List.map_congr_left
      intro q _
      exact (hr.2.2 q).symm
    rw [this]
    exact hpn
  · intro p hp
    have := (hpp p hp).1
    rw [hr.2.1, hr.2.2] at this
    exact this


/-- C1, witness: a new session on the sample pool with two active proxies, after
three allocations by other sessions, is given both proxies and then the
error. -/
theorem GetOneProxy_consecutive_witness :
    (run activePoolAB opsRound).proxyUsed.lookup 5 = none ∧
    ∃ ps : List Ptr,
      (GetManyProxy (run activePoolAB opsRound) 5
        [[entryA, entryB], [entryB, entryA], [entryA, entryB]]).1 = ps.map some ++ [none] ∧
      ps.length = activePoolAB.proxyListActive.entries.length ∧
      (ps.map (fun p => (activePoolAB.heap p).proxy)).Nodup ∧
      ∀ p ∈ ps, activePoolAB.proxyListActive.lookup (activePoolAB.heap p).proxy = some p :=
  ⟨by decide,
    (GetOneProxy_consecutive activePoolAB opsRound rfl (by decide) (by decide) (by decide) 5
      (by decide) [[entryA, entryB], [entryB, entryA], [entryA, entryB]] (by decide)
      (by decide)).2⟩

/-! ### A failed `GetOneProxy` -/

/-- C17: a failed `GetOneProxy(S)` is atomic apart from the lazy creation of the
session entry.  Whenever it returns the "no active proxy" error (under any
iteration order), the active map, the registry of all proxies,
`proxyActiveUsed` (the round), the store of records (hence every use count)
and every existing `proxyUsed` entry are unchanged.  The only possible change is
a new empty `proxyUsed[S]`: it is created when the active map is not empty and
`S` had no entry; when the active map is empty, or `S` already had an entry, the
whole pool is unchanged. -/
theorem GetOneProxy_error_frame (pool : ProxyPool) (order : List Entry) (logid : Int)
    (h : (GetOneProxy pool order logid).1 = none) :
    (GetOneProxy pool order logid).2.proxyListActive = pool.proxyListActive ∧
    (GetOneProxy pool order logid).2.proxyListAll = pool.proxyListAll ∧
    (GetOneProxy pool order logid).2.proxyActiveUsed = pool.proxyActiveUsed ∧
    (GetOneProxy pool order logid).2.heap = pool.heap ∧
    (GetOneProxy pool order logid).2.checkInterval = pool.checkInterval ∧
    (∀ other s, pool.proxyUsed.lookup other = some s →
      (GetOneProxy pool order logid).2.proxyUsed.lookup other = some s) ∧
    (∀ other, other ≠ logid →
      (GetOneProxy pool order logid).2.proxyUsed.lookup other
        = pool.proxyUsed.lookup other) ∧
    (pool.proxyListActive.entries.length ≠ 0 → pool.proxyUsed.lookup logid = none →
      (GetOneProxy pool order logid).2.proxyUsed = pool.proxyUsed.insert logid ∅ ∧
      (GetOneProxy pool order logid).2.proxyUsed.lookup logid = some ∅) ∧
    (pool.proxyListActive.entries.length = 0 → (GetOneProxy pool order logid).2 = pool) ∧
    (∀ s, pool.proxyUsed.lookup logid = some s → (GetOneProxy pool order logid).2 = pool) := by
  have hst := GetOneProxy_none_state pool order logid h
  have hm := GetOneProxy_maps pool order logid
  have hr := GetOneProxy_none_round pool order logid h
  have hempty : pool.proxyListActive.entries.length = 0 →
      (GetOneProxy pool order logid).2 = pool := by
    intro h0
    rw [hst, if_pos h0]
  have hhas : ∀ s, pool.proxyUsed.lookup logid = some s →
      (GetOneProxy pool order logid).2 = pool := by
    intro s hs
    rw [hst]
    split
    · rfl
    · unfold ensureSession
      rw [hs]
  have hnew : pool.proxyListActive.entries.length ≠ 0 → pool.proxyUsed.lookup logid = none →
      (GetOneProxy pool order logid).2.proxyUsed = pool.proxyUsed.insert logid ∅ := by
    intro h0 hn
    rw [hst, if_neg h0]
    unfold ensureSession
    rw [hn]
  refine ⟨hm.1, hm.2.1, hr.1, hr.2, hm.2.2.1, ?_, ?_, ?_, hempty, hhas⟩
  · intro other s hs
    by_cases h0 : pool.proxyListActive.entries.length = 0
    · rw [hempty h0]; exact hs
    · cases hl : pool.proxyUsed.lookup logid with
      | some s2 => rw [hhas s2 hl]; exact hs
      | none =>
        rw [hnew h0 hl]
        have hne : other ≠ logid := by
          intro c
          rw [c, hl] at hs
          exact absurd hs (by simp)
        rw [AList.lookup_insert_ne hne]
        exact hs
  · intro other hne
    by_cases h0 : pool.proxyListActive.entries.length = 0
    · rw [hempty h0]
    · cases hl : pool.proxyUsed.lookup logid with
      | some s2 => rw [hhas s2 hl]
      | none => rw [hnew h0 hl, AList.lookup_insert_ne hne]
  · intro h0 hn
    refine ⟨hnew h0 hn, ?_⟩
    rw [hnew h0 hn, AList.lookup_insert]

/-! ### `TestProxy` -/

theorem IsOk_iff (proxy : Proxy) : proxy.IsOk = true ↔ proxy.StatusCode = PROXY_STATUS_ACTIVE := by
  unfold Proxy.IsOk
  exact beq_iff_eq

theorem TestProxy_throttled (pool : ProxyPool) (proxy : Ptr) (now : Int) (probeOk : Bool)
    (usedMs : Int) (h : throttled pool proxy now) :
    TestProxy pool proxy now probeOk usedMs = ((pool.heap proxy).IsOk, pool) := by
  unfold throttled at h
  unfold TestProxy
  rw [if_pos h]

theorem TestProxy_probed (pool : ProxyPool) (proxy : Ptr) (now : Int) (probeOk : Bool)
    (usedMs : Int) (h : ¬ throttled pool proxy now) :
    TestProxy pool proxy now probeOk usedMs =
      (probeOk, { pool with
        heap := Function.update pool.heap proxy
          (probedRecord (pool.heap proxy) now probeOk usedMs) }) := by
  unfold throttled at h
  unfold TestProxy
  rw [if_neg h]
  cases probeOk <;> rfl

theorem probedRecord_IsOk (proxy : Proxy) (now : Int) (probeOk : Bool) (usedMs : Int) :
    (probedRecord proxy now probeOk usedMs).IsOk = probeOk := by
  cases probeOk <;> rfl

/-- C13: for every call of `TestProxy` on a record at start time `now`, with the
probe outcome `probeOk` as an input: the returned boolean is `IsOk` of the record
after the call, that is, it is true exactly when the status afterwards is
`PROXY_STATUS_ACTIVE`.  When the call is not throttled, the status afterwards is
`PROXY_STATUS_ACTIVE` if the probe succeeded and `PROXY_STATUS_UNAVAILABLE`
otherwise, `LastCheck` afterwards is `now` on both outcomes (and `CheckUsed` is
the measured duration); a throttled call changes nothing.  The throttle test is
`now - LastCheck < checkInterval/2` whenever that difference fits `int64`. -/
theorem TestProxy_spec (pool : ProxyPool) (proxy : Ptr) (now : Int) (probeOk : Bool)
    (usedMs : Int) :
    (TestProxy pool proxy now probeOk usedMs).1
      = ((TestProxy pool proxy now probeOk usedMs).2.heap proxy).IsOk ∧
    ((TestProxy pool proxy now probeOk usedMs).1 = true ↔
      ((TestProxy pool proxy now probeOk usedMs).2.heap proxy).StatusCode
        = PROXY_STATUS_ACTIVE) ∧
    (¬ throttled pool proxy now →
      ((TestProxy pool proxy now probeOk usedMs).2.heap proxy).StatusCode
        = (if probeOk then PROXY_STATUS_ACTIVE else PROXY_STATUS_UNAVAILABLE) ∧
      ((TestProxy pool proxy now probeOk usedMs).2.heap proxy).LastCheck = now ∧
      ((TestProxy pool proxy now probeOk usedMs).2.heap proxy).CheckUsed = usedMs ∧
      (TestProxy pool proxy now probeOk usedMs).1 = probeOk) ∧
    (throttled pool proxy now → (TestProxy pool proxy now probeOk usedMs).2 = pool) ∧
    (inInt64 (now - (pool.heap proxy).LastCheck) →
      (throttled pool proxy now ↔
        now - (pool.heap proxy).LastCheck < Int.tdiv pool.checkInterval 2)) := by
  have hret : (TestProxy pool proxy now probeOk usedMs).1
      = ((TestProxy pool proxy now probeOk usedMs).2.heap proxy).IsOk := by
    by_cases h : throttled pool proxy now
    · rw [TestProxy_throttled pool proxy now probeOk usedMs h]
    · rw [TestProxy_probed pool proxy now probeOk usedMs h]
      show probeOk = ((Function.update pool.heap proxy
        (probedRecord (pool.heap proxy) now probeOk usedMs)) proxy).IsOk
      rw [Function.update_same, probedRecord_IsOk]
  refine ⟨hret, ?_, ?_, ?_, ?_⟩
  · rw [hret]
    exact IsOk_iff _
  · intro h
    rw [TestProxy_probed pool proxy now probeOk usedMs h]
    simp only [Function.update_same]
    exact ⟨rfl, rfl, rfl, trivial⟩
  · intro h
    rw [TestProxy_throttled pool proxy now probeOk usedMs h]
  · intro hfit
    unfold throttled
    rw [wrapInt64_of_inInt64 _ hfit]

/-- C12: health throttling.  If `TestProxy` is called on a record at time `t1`
and probes (is not throttled), and is called again at time `t2` with
`t2 - t1 < checkInterval/2` (Go integer division; the difference of the two
clock readings fits `int64`), then the second call is throttled: whatever its
probe inputs are, it returns the same boolean as the first call and leaves the
whole pool, hence the status, `LastCheck` and `CheckUsed` of the record,
unchanged. -/
theorem TestProxy_throttle (pool : ProxyPool) (proxy : Ptr) (t1 t2 : Int)
    (probeOk1 probeOk2 : Bool) (usedMs1 usedMs2 : Int)
    (hprobe : ¬ throttled pool proxy t1)
    (hfit : inInt64 (t2 - t1))
    (hsoon : t2 - t1 < Int.tdiv pool.checkInterval 2) :
    (TestProxy (TestProxy pool proxy t1 probeOk1 usedMs1).2 proxy t2 probeOk2 usedMs2).1
      = (TestProxy pool proxy t1 probeOk1 usedMs1).1 ∧
    (TestProxy (TestProxy pool proxy t1 probeOk1 usedMs1).2 proxy t2 probeOk2 usedMs2).2
      = (TestProxy pool proxy t1 probeOk1 usedMs1).2 ∧
    throttled (TestProxy pool proxy t1 probeOk1 usedMs1).2 proxy t2 ∧
    ((TestProxy pool proxy t1 probeOk1 usedMs1).2.heap proxy).LastCheck = t1 := by
  have h1 := TestProxy_probed pool proxy t1 probeOk1 usedMs1 hprobe
  have hlast : ((TestProxy pool proxy t1 probeOk1 usedMs1).2.heap proxy).LastCheck = t1 := by
    rw [h1]
    simp only [Function.update_same]
    exact rfl
  have hci : (TestProxy pool proxy t1 probeOk1 usedMs1).2.checkInterval
      = pool.checkInterval := by
    rw [h1]
  have hth : throttled (TestProxy pool proxy t1 probeOk1 usedMs1).2 proxy t2 := by
    unfold throttled
    rw [hlast, hci, wrapInt64_of_inInt64 _ hfit]
    exact hsoon
  rw [TestProxy_throttled _ proxy t2 probeOk2 usedMs2 hth]
  refine ⟨?_, rfl, hth, hlast⟩
  rw [h1]
  simp only [Function.update_same]
  exact probedRecord_IsOk _ t1 probeOk1 usedMs1


/-- C17, witness: session 1 of the sample run is refused and the round is
unchanged. -/
theorem GetOneProxy_error_frame_witness :
    (GetOneProxy (run activePoolAB opsRound) [entryA, entryB] 1).1 = none ∧
    (GetOneProxy (run activePoolAB opsRound) [entryA, entryB] 1).2.proxyActiveUsed
      = (run activePoolAB opsRound).proxyActiveUsed :=
  ⟨by decide,
    (GetOneProxy_error_frame (run activePoolAB opsRound) [entryA, entryB] 1 (by decide)).2.2.1⟩

/-- C12, witness: with a check interval of 60 seconds, a check at second 1000
followed by one at second 1010. -/
theorem TestProxy_throttle_witness :
    ¬ throttled samplePool 0 1000 ∧
    (TestProxy (TestProxy samplePool 0 1000 false 25).2 0 1010 true 3).1
      = (TestProxy samplePool 0 1000 false 25).1 :=
  ⟨by decide,
    (TestProxy_throttle samplePool 0 1000 1010 false true 25 3 (by decide) (by decide)
      (by decide)).1⟩

/-! ### `TestProxyAddActive` -/

theorem mem_addProxyActive (pool : ProxyPool) (u k : String) :
    k ∈ (addProxyActive pool u).2.proxyListActive ↔
      k ∈ pool.proxyListActive ∨ (k = u ∧ u ∈ pool.proxyListAll) := by
  unfold addProxyActive
  cases hl : pool.proxyListAll.lookup u with
  | none =>
    have : u ∉ pool.proxyListAll := AList.lookup_eq_none.1 hl
    simp [this]
  | some p =>
    have hall : u ∈ pool.proxyListAll := by rw [← AList.lookup_isSome, hl]; rfl
    by_cases hn : (pool.proxyListActive.lookup u).isNone = true
    · dsimp only
      rw [if_pos hn]
      simp only [AList.mem_insert, hall, and_true]
      tauto
    · dsimp only
      rw [if_neg hn]
      have hact : u ∈ pool.proxyListActive := by
        by_contra c
        exact hn (isNone_iff_not_mem.2 c)
      constructor
      · exact fun h => Or.inl h
      · rintro (h | ⟨h, _⟩)
        · exact h
        · rw [h]; exact hact

theorem removeProxyActive_eq (pool : ProxyPool) (u : String) :
    removeProxyActive pool u =
      { pool with proxyListActive := pool.proxyListActive.erase u } := by
  unfold removeProxyActive
  by_cases h : (pool.proxyListActive.lookup u).isSome = true
  · rw [if_pos h]
  · rw [if_neg h]
    have hn : u ∉ pool.proxyListActive := fun c => h (AList.lookup_isSome.2 c)
    rw [erase_of_not_mem hn]

theorem mem_removeProxyActive (pool : ProxyPool) (u k : String) :
    k ∈ (removeProxyActive pool u).proxyListActive ↔ k ≠ u ∧ k ∈ pool.proxyListActive := by
  have h := (removeProxyActive_eq pool u)
  rw [h]
  exact AList.mem_erase

theorem addProxyActive_frame (pool : ProxyPool) (u : String) :
    (addProxyActive pool u).2.heap = pool.heap ∧
    (addProxyActive pool u).2.proxyListAll = pool.proxyListAll := by
  unfold addProxyActive
  cases pool.proxyListAll.lookup u with
  | none => exact ⟨rfl, rfl⟩
  | some p =>
    dsimp only
    split <;> exact ⟨rfl, rfl⟩

theorem TestProxy_heap_proxy (pool : ProxyPool) (proxy : Ptr) (now : Int) (ok : Bool)
    (ms : Int) (q : Ptr) :
    ((TestProxy pool proxy now ok ms).2.heap q).proxy = (pool.heap q).proxy := by
  by_cases h : throttled pool proxy now
  · rw [TestProxy_throttled pool proxy now ok ms h]
  · rw [TestProxy_probed pool proxy now ok ms h]
    show ((Function.update pool.heap proxy _) q).proxy = _
    by_cases hq : q = proxy
    · subst hq; rw [Function.update_same]; rfl
    · rw [Function.update_noteq hq]

theorem TestProxyAddActive_eq (pool : ProxyPool) (a : String) (now : Int) (ok : Bool)
    (ms : Int) (p : Ptr) (hl : pool.proxyListAll.lookup a = some p)
    (hkey : (pool.heap p).proxy = a) :
    TestProxyAddActive pool a now ok ms =
      (true, if (TestProxy pool p now ok ms).1 = true
        then (addProxyActive (TestProxy pool p now ok ms).2 a).2
        else removeProxyActive (TestProxy pool p now ok ms).2 a) := by
  unfold TestProxyAddActive GetProxy
  rw [hl]
  dsimp only
  rw [TestProxy_heap_proxy, hkey]
  split <;> rfl

theorem step_frame (pool : ProxyPool) (op : Op) :
    (step pool op).proxyListAll = pool.proxyListAll ∧
    ∀ q, ((step pool op).heap q).proxy = (pool.heap q).proxy := by
  cases op with
  | addActive u =>
    have h := addProxyActive_frame pool u
    exact ⟨h.2, fun q => by show ((addProxyActive pool u).2.heap q).proxy = _; rw [h.1]⟩
  | removeActive u =>
    show (removeProxyActive pool u).proxyListAll = _ ∧
      ∀ q, ((removeProxyActive pool u).heap q).proxy = _
    rw [removeProxyActive_eq]
    exact ⟨rfl, fun _ => rfl⟩
  | clean logid =>
    show (CleanSessionProxy pool logid).proxyListAll = _ ∧
      ∀ q, ((CleanSessionProxy pool logid).heap q).proxy = _
    rw [CleanSessionProxy_eq]
    exact ⟨rfl, fun _ => rfl⟩
  | getOne logid order =>
    have hm := GetOneProxy_maps pool order logid
    exact ⟨hm.2.1, hm.2.2.2⟩
  | testAddActive u now ok ms =>
    show (TestProxyAddActive pool u now ok ms).2.proxyListAll = _ ∧
      ∀ q, ((TestProxyAddActive pool u now ok ms).2.heap q).proxy = _
    unfold TestProxyAddActive
    cases hg : GetProxy pool u with
    | none => exact ⟨rfl, fun _ => rfl⟩
    | some proxy =>
      have hm := TestProxy_maps pool proxy now ok ms
      dsimp only
      split
      · have h := addProxyActive_frame (TestProxy pool proxy now ok ms).2
          (((TestProxy pool proxy now ok ms).2.heap proxy).proxy)
        exact ⟨h.2.trans hm.2, fun q => by rw [h.1]; exact TestProxy_heap_proxy _ _ _ _ _ q⟩
      · rw [removeProxyActive_eq]
        exact ⟨hm.2, fun q => TestProxy_heap_proxy _ _ _ _ _ q⟩

theorem AllKeyed_step (pool : ProxyPool) (op : Op) (hk : AllKeyed pool) :
    AllKeyed (step pool op) := by
  intro e he
  have h := step_frame pool op
  rw [h.1] at he
  rw [h.2]
  exact hk e he

theorem RegistryInv_of_empty (pool : ProxyPool) (h : pool.proxyListActive = ∅) :
    RegistryInv pool := by
  intro k p hk
  rw [h] at hk
  simp at hk

theorem ActiveKeyed_of_AllKeyed (pool : ProxyPool) (hk : AllKeyed pool)
    (hr : RegistryInv pool) : ActiveKeyed pool := by
  intro e he
  have h1 : pool.proxyListActive.lookup e.1 = some e.2 :=
    Option.mem_def.1 (AList.mem_lookup_iff.2 (by cases e; exact he))
  have h2 := hr e.1 e.2 h1
  have h3 : (⟨e.1, e.2⟩ : Entry) ∈ pool.proxyListAll.entries :=
    AList.mem_lookup_iff.1 (Option.mem_def.2 h2)
  exact hk ⟨e.1, e.2⟩ h3

theorem quiet_step (a : String) (pool : ProxyPool) (op : Op) (hk : AllKeyed pool)
    (hq : quietFor a pool op) (ha : a ∉ pool.proxyListActive) :
    a ∉ (step pool op).proxyListActive := by
  cases op with
  | addActive u =>
    show a ∉ (addProxyActive pool u).2.proxyListActive
    rw [mem_addProxyActive]
    rintro (h | ⟨h, _⟩)
    · exact ha h
    · exact hq h.symm
  | removeActive u =>
    show a ∉ (removeProxyActive pool u).proxyListActive
    rw [mem_removeProxyActive]
    exact fun h => ha h.2
  | clean logid =>
    show a ∉ (CleanSessionProxy pool logid).proxyListActive
    rw [CleanSessionProxy_eq]
    exact ha
  | getOne logid order =>
    show a ∉ (GetOneProxy pool order logid).2.proxyListActive
    rw [(GetOneProxy_maps pool order logid).1]
    exact ha
  | testAddActive u now ok ms =>
    show a ∉ (TestProxyAddActive pool u now ok ms).2.proxyListActive
    cases hg : pool.proxyListAll.lookup u with
    | none =>
      have : TestProxyAddActive pool u now ok ms = (false, pool) := by
        unfold TestProxyAddActive GetProxy
        rw [hg]
      rw [this]
      exact ha
    | some p =>
      have hkey : (pool.heap p).proxy = u :=
        hk ⟨u, p⟩ (AList.mem_lookup_iff.1 (Option.mem_def.2 hg))
      have hact : pool.proxyListActive
          = (TestProxy pool p now ok ms).2.proxyListActive :=
        (TestProxy_maps pool p now ok ms).1.symm
      rw [TestProxyAddActive_eq pool u now ok ms p hg hkey]
      dsimp only
      split
      · rename_i htrue
        rw [mem_addProxyActive, ← hact]
        rintro (h | ⟨h, _⟩)
        · exact ha h
        · rcases hq with hne | hfalse
          · exact hne h.symm
          · unfold checkResult GetProxy at hfalse
            rw [hg] at hfalse
            dsimp only at hfalse
            rw [htrue] at hfalse
            exact absurd hfalse (by simp)
      · rw [mem_removeProxyActive, ← hact]
        exact fun h => ha h.2

theorem quiet_run (a : String) (ops : List Op) : ∀ pool : ProxyPool,
    AllKeyed pool → RegistryInv pool → quietRun a pool ops → a ∉ pool.proxyListActive →
    a ∉ (run pool ops).proxyListActive ∧ AllKeyed (run pool ops) ∧
    RegistryInv (run pool ops) ∧ (run pool ops).proxyListAll = pool.proxyListAll := by
  induction ops with
  | nil => exact fun pool hk hr _ ha => ⟨ha, hk, hr, rfl⟩
  | cons op ops ih =>
    intro pool hk hr hq ha
    have h1 := quiet_step a pool op hk hq.1 ha
    have h2 := step_inv pool op hr
    have h3 := ih (step pool op) (AllKeyed_step pool op hk) h2.1 hq.2 h1
    exact ⟨h3.1, h3.2.1, h3.2.2.1, h3.2.2.2.trans h2.2⟩

/-- C11: let the registry of all proxies be keyed by the addresses of its records
(as `loadConf` builds it) and let every active entry be an entry of the
registry.  For every address `a`, `TestProxyAddActive(a)` returns false and
leaves the pool unchanged when `a` is not in the registry.  When `a` is in the
registry it returns true, and afterwards `a` is in the active map if and only if
the health check `TestProxy` returned true for the record of `a`; the registry is
unchanged either way.  After a check that returned false, along any later calls
among which no check of `a` returns true, no `GetOneProxy` call returns the
record of `a` or any record with address `a`: `a` stays out of the active map,
and stays in the registry. -/
theorem TestProxyAddActive_spec (pool : ProxyPool) (a : String) (now : Int) (probeOk : Bool)
    (usedMs : Int) (hk : AllKeyed pool) (hr : RegistryInv pool) :
    (a ∉ pool.proxyListAll → TestProxyAddActive pool a now probeOk usedMs = (false, pool)) ∧
    (∀ p, pool.proxyListAll.lookup a = some p →
      (TestProxyAddActive pool a now probeOk usedMs).1 = true ∧
      (a ∈ (TestProxyAddActive pool a now probeOk usedMs).2.proxyListActive ↔
        (TestProxy pool p now probeOk usedMs).1 = true) ∧
      (TestProxyAddActive pool a now probeOk usedMs).2.proxyListAll = pool.proxyListAll ∧
      ((TestProxy pool p now probeOk usedMs).1 = false →
        ∀ (ops : List Op) (order : List Entry) (logid : Int) (q : Ptr),
          quietRun a (TestProxyAddActive pool a now probeOk usedMs).2 ops →
          order.Perm
            (run (TestProxyAddActive pool a now probeOk usedMs).2 ops).proxyListActive.entries →
          (GetOneProxy (run (TestProxyAddActive pool a now probeOk usedMs).2 ops)
            order logid).1 = some q →
          q ≠ p ∧
          ((run (TestProxyAddActive pool a now probeOk usedMs).2 ops).heap q).proxy ≠ a ∧
          a ∉ (run (TestProxyAddActive pool a now probeOk usedMs).2 ops).proxyListActive ∧
          a ∈ (run (TestProxyAddActive pool a now probeOk usedMs).2 ops).proxyListAll)) := by
  constructor
  · intro hn
    unfold TestProxyAddActive GetProxy
    rw [AList.lookup_eq_none.2 hn]
  · intro p hl
    have hkey : (pool.heap p).proxy = a :=
      hk ⟨a, p⟩ (AList.mem_lookup_iff.1 (Option.mem_def.2 hl))
    have heq := TestProxyAddActive_eq pool a now probeOk usedMs p hl hkey
    have hm := TestProxy_maps pool p now probeOk usedMs
    have hall : a ∈ pool.proxyListAll := by rw [← AList.lookup_isSome, hl]; rfl
    have hmem : a ∈ (TestProxyAddActive pool a now probeOk usedMs).2.proxyListActive ↔
        (TestProxy pool p now probeOk usedMs).1 = true := by
      rw [heq]
      dsimp only
      split
      · rename_i htrue
        rw [mem_addProxyActive, hm.2]
        exact ⟨fun _ => htrue, fun _ => Or.inr ⟨rfl, hall⟩⟩
      · rename_i hfalse
        rw [mem_removeProxyActive]
        exact ⟨fun h => absurd rfl h.1, fun h => absurd h hfalse⟩
    have hstep : (TestProxyAddActive pool a now probeOk usedMs).2
        = step pool (.testAddActive a now probeOk usedMs) := rfl
    have hall2 : (TestProxyAddActive pool a now probeOk usedMs).2.proxyListAll
        = pool.proxyListAll := by
      rw [hstep]; exact (step_frame pool _).1
    refine ⟨by rw [heq], hmem, hall2, ?_⟩
    intro hfalse ops order logid q hquiet ho hq
    have hk1 : AllKeyed (TestProxyAddActive pool a now probeOk usedMs).2 := by
      rw [hstep]; exact AllKeyed_step pool _ hk
    have hr1 : RegistryInv (TestProxyAddActive pool a now probeOk usedMs).2 := by
      rw [hstep]; exact (step_inv pool _ hr).1
    have hna : a ∉ (TestProxyAddActive pool a now probeOk usedMs).2.proxyListActive := by
      rw [hmem, hfalse]; simp
    have hrun := quiet_run a ops _ hk1 hr1 hquiet hna
    have hak := ActiveKeyed_of_AllKeyed _ hrun.2.1 hrun.2.2.1
    have hs := GetOneProxy_some _ order logid q hak ho hq
    have haddr : ((run (TestProxyAddActive pool a now probeOk usedMs).2 ops).heap q).proxy
        ≠ a := by
      intro c
      apply hrun.1
      have h1 := hs.1
      rw [c] at h1
      rw [← AList.lookup_isSome, h1]
      rfl
    have hallrun : (run (TestProxyAddActive pool a now probeOk usedMs).2 ops).proxyListAll
        = pool.proxyListAll := hrun.2.2.2.trans hall2
    refine ⟨?_, haddr, hrun.1, by rw [hallrun]; exact hall⟩
    intro c
    apply haddr
    rw [c]
    exact hrun.2.1 ⟨a, p⟩ (by
      rw [hallrun]; exact AList.mem_lookup_iff.1 (Option.mem_def.2 hl))


set_option maxRecDepth 8000 in
/-- C11, witness: both sample proxies are up, then the check of the second one
fails; along later calls the allocator hands out the first proxy only. -/
theorem TestProxyAddActive_spec_witness :
    (TestProxy (run samplePool opsBothUp) 1 5000 false 40).1 = false ∧
    (GetOneProxy
      (run (TestProxyAddActive (run samplePool opsBothUp) entryB.1 5000 false 40).2 opsQuiet)
      [entryA] 4).1 = some 0 ∧
    entryB.1 ∉
      (run (TestProxyAddActive (run samplePool opsBothUp) entryB.1 5000 false 40).2
        opsQuiet).proxyListActive :=
  ⟨by decide, by decide,
    ((((TestProxyAddActive_spec (run samplePool opsBothUp) entryB.1 5000 false 40 (by decide)
      (run_inv opsBothUp samplePool (RegistryInv_of_empty samplePool rfl)).1).2 1
      (by decide)).2.2.2 (by decide)) opsQuiet [entryA] 4 0 (by decide) (by decide)
      (by decide)).2.2.1⟩

/-! ### `LoadProxyPool` -/

theorem mergeBaseline_lookup (order : List Entry) : ∀ (all : ProxyMap) (k : String),
    (mergeBaseline all order).lookup k =
      match all.lookup k with
      | some p => some p
      | none => List.dlookup k order := by
  induction order with
  | nil =>
    intro all k
    unfold mergeBaseline
    cases all.lookup k <;> rfl
  | cons e rest ih =>
    intro all k
    unfold mergeBaseline
    by_cases hn : (all.lookup e.1).isNone = true
    · rw [if_pos hn, ih]
      have hnone : all.lookup e.1 = none := Option.isNone_iff_eq_none.1 hn
      by_cases hk : k = e.1
      · subst hk
        rw [AList.lookup_insert, hnone]
        cases e
        simp [List.dlookup_cons_eq]
      · rw [AList.lookup_insert_ne hk, List.dlookup_cons_ne _ _ hk]
    · rw [if_neg hn, ih]
      by_cases hk : k = e.1
      · subst hk
        cases hl : all.lookup e.1 with
        | none => rw [hl] at hn; exact absurd rfl hn
        | some p => rfl
      · rw [List.dlookup_cons_ne _ _ hk]

theorem mergeBaseline_lookup_perm (all baseline : ProxyMap) (order : List Entry)
    (ho : order.Perm baseline.entries) (k : String) :
    (mergeBaseline all order).lookup k =
      match all.lookup k with
      | some p => some p
      | none => baseline.lookup k := by
  rw [mergeBaseline_lookup]
  have hnd : order.NodupKeys := (List.perm_nodupKeys ho).2 baseline.nodupKeys
  have : List.dlookup k order = baseline.lookup k :=
    List.perm_dlookup k hnd baseline.nodupKeys ho
  rw [this]

/-- C16: load merge.  Given the maps loaded from the checked file and from the
baseline file (and any order in which the loop visits the baseline map), the
registry `LoadProxyPool` builds has as keys exactly the union of both key sets;
every address present in the checked map maps to the checked record, every
address present only in the baseline map maps to the baseline record.  A pool
that `LoadProxyPool` returns holds that registry (and an empty active map);
`LoadProxyPool` returns no pool when the merged registry is empty, and it does
return one when the registry is not empty and the alive check did not fail. -/
theorem LoadProxyPool_merge (heap : Ptr → Proxy) (checkInterval : Int) (aliveFailed : Bool)
    (baseline checked : ProxyMap) (order : List Entry)
    (ho : order.Perm baseline.entries) :
    (∀ k, k ∈ mergeBaseline checked order ↔ k ∈ checked ∨ k ∈ baseline) ∧
    (∀ k p, checked.lookup k = some p → (mergeBaseline checked order).lookup k = some p) ∧
    (∀ k, k ∉ checked →
      (mergeBaseline checked order).lookup k = baseline.lookup k) ∧
    (∀ pool, LoadProxyPool heap checkInterval aliveFailed (some baseline) checked order
        = some pool →
      pool.proxyListAll = mergeBaseline checked order ∧ pool.proxyListActive = ∅ ∧
      pool.heap = heap) ∧
    ((mergeBaseline checked order).entries = [] →
      LoadProxyPool heap checkInterval aliveFailed (some baseline) checked order = none) ∧
    (aliveFailed = false → (mergeBaseline checked order).entries ≠ [] →
      ∃ pool, LoadProxyPool heap checkInterval aliveFailed (some baseline) checked order
        = some pool) := by
  have hl := mergeBaseline_lookup_perm checked baseline order ho
  refine ⟨?_, ?_, ?_, ?_, ?_, ?_⟩
  · intro k
    rw [← AList.lookup_isSome, ← AList.lookup_isSome, ← AList.lookup_isSome, hl]
    cases checked.lookup k <;> simp
  · intro k p hp
    rw [hl, hp]
  · intro k hk
    rw [hl, AList.lookup_eq_none.2 hk]
  · intro pool hp
    unfold LoadProxyPool at hp
    cases aliveFailed with
    | true => simp at hp
    | false =>
      simp only [Bool.false_eq_true, if_false] at hp
      split at hp
      · exact absurd hp (by simp)
      · have := Option.some.inj hp
        rw [← this]
        exact ⟨rfl, rfl, rfl⟩
  · intro he
    unfold LoadProxyPool
    cases aliveFailed with
    | true => rfl
    | false =>
      simp only [Bool.false_eq_true, if_false]
      rw [if_pos (by rw [he]; rfl)]
  · intro ha hne
    unfold LoadProxyPool
    rw [ha]
    simp only [Bool.false_eq_true, if_false]
    rw [if_neg (by intro c; exact hne (List.length_eq_zero.1 c))]
    exact ⟨_, rfl⟩


/-- C16, witness: the checked file knows the second sample proxy, the baseline
file both; the first one is taken from the baseline. -/
theorem LoadProxyPool_merge_witness :
    List.Perm [entryB, entryA] (List.toAList [entryA, entryB]).entries ∧
    (mergeBaseline (List.toAList [entryB]) [entryB, entryA]).lookup entryA.1
      = (List.toAList [entryA, entryB]).lookup entryA.1 :=
  ⟨by decide,
    (LoadProxyPool_merge sampleHeap 60 false (List.toAList [entryA, entryB])
      (List.toAList [entryB]) [entryB, entryA] (by decide)).2.2.1 entryA.1 (by decide)⟩

/-! ### Persistence -/

theorem splitChar_cons_sep (sep : Char) (cs : List Char) :
    splitChar sep (sep :: cs) = [] :: splitChar sep cs := by
  rw [splitChar, if_pos rfl]

theorem splitChar_cons_ne (sep c : Char) (cs : List Char) (h : c ≠ sep) :
    splitChar sep (c :: cs) =
      match splitChar sep cs with
      | [] => [[c]]
      | w :: ws => (c :: w) :: ws := by
  rw [splitChar, if_neg h]

theorem splitKeyValue_cons_eq (cs : List Char) : splitKeyValue ('=' :: cs) = ([], cs) := by
  rw [splitKeyValue, if_pos rfl]

theorem splitKeyValue_cons_ne (c : Char) (cs : List Char) (h : c ≠ '=') :
    splitKeyValue (c :: cs) = (c :: (splitKeyValue cs).1, (splitKeyValue cs).2) := by
  rw [splitKeyValue, if_neg h]

theorem splitChar_of_not_mem (sep : Char) (l : List Char) (h : sep ∉ l) :
    splitChar sep l = [l] := by
  induction l with
  | nil => rfl
  | cons c cs ih =>
    have hc : c ≠ sep := fun e => h (by rw [e]; exact List.mem_cons_self _ _)
    have hcs : sep ∉ cs := fun e => h (List.mem_cons_of_mem _ e)
    rw [splitChar_cons_ne sep c cs hc, ih hcs]

theorem splitChar_append (sep : Char) (l1 l2 : List Char) (h : sep ∉ l1) :
    splitChar sep (l1 ++ sep :: l2) = l1 :: splitChar sep l2 := by
  induction l1 with
  | nil =>
    exact splitChar_cons_sep sep l2
  | cons c cs ih =>
    have hc : c ≠ sep := fun e => h (by rw [e]; exact List.mem_cons_self _ _)
    have hcs : sep ∉ cs := fun e => h (List.mem_cons_of_mem _ e)
    show splitChar sep (c :: (cs ++ sep :: l2)) = _
    rw [splitChar_cons_ne sep c _ hc, ih hcs]

theorem splitKeyValue_append (k v : List Char) (h : '=' ∉ k) :
    splitKeyValue (k ++ '=' :: v) = (k, v) := by
  induction k with
  | nil =>
    exact splitKeyValue_cons_eq v
  | cons c cs ih =>
    have hc : c ≠ '=' := fun e => h (by rw [e]; exact List.mem_cons_self _ _)
    have hcs : '=' ∉ cs := fun e => h (List.mem_cons_of_mem _ e)
    show splitKeyValue (c :: (cs ++ '=' :: v)) = _
    rw [splitKeyValue_cons_ne c _ hc, ih hcs]

theorem splitChar_stringsJoin (sep : Char) : ∀ (ls : List String), ls ≠ [] →
    (∀ l ∈ ls, sep ∉ l.data) →
    splitChar sep (stringsJoin (String.singleton sep) ls).data = ls.map String.data
  | [], h, _ => absurd rfl h
  | [a], _, hs => by
    show splitChar sep a.data = [a.data]
    exact splitChar_of_not_mem sep a.data (hs a (List.mem_cons_self _ _))
  | a :: b :: rest, _, hs => by
    have ih := splitChar_stringsJoin sep (b :: rest) (by simp)
      (fun l hl => hs l (List.mem_cons_of_mem _ hl))
    show splitChar sep (a ++ String.singleton sep ++ stringsJoin (String.singleton sep)
      (b :: rest)).data = _
    rw [String.data_append, String.data_append]
    have : (String.singleton sep).data = [sep] := rfl
    rw [this, List.append_assoc, List.singleton_append,
      splitChar_append sep _ _ (hs a (List.mem_cons_self _ _)), ih]
    rfl

theorem Proxy_String_data (fmtInt : Int → String) (p : Proxy) :
    (Proxy_String fmtInt p).data =
      ("proxy".data ++ '=' :: p.proxy.data) ++ '\t' ::
      (("weight".data ++ '=' :: (fmtInt p.Weight).data) ++ '\t' ::
      (("last_check".data ++ '=' :: (fmtInt p.LastCheck).data) ++ '\t' ::
      (("check_used".data ++ '=' :: (fmtInt p.CheckUsed).data) ++ '\t' ::
      ("status".data ++ '=' :: (fmtInt p.StatusCode).data)))) := by
  unfold Proxy_String
  simp only [String.data_append]
  simp only [List.append_assoc, List.cons_append, List.nil_append, List.singleton_append]

theorem not_mem_field (key value : List Char) (hk : '\t' ∉ key) (hv : '\t' ∉ value) :
    '\t' ∉ key ++ '=' :: value := by
  intro h
  rcases List.mem_append.1 h with h1 | h1
  · exact hk h1
  · rcases List.mem_cons.1 h1 with h2 | h2
    · exact absurd h2 (by decide)
    · exact hv h2

theorem lineFields_Proxy_String (fmtInt : Int → String) (p : Proxy)
    (haddr : '\t' ∉ p.proxy.data) (hw : '\t' ∉ (fmtInt p.Weight).data)
    (hl : '\t' ∉ (fmtInt p.LastCheck).data) (hc : '\t' ∉ (fmtInt p.CheckUsed).data)
    (hs : '\t' ∉ (fmtInt p.StatusCode).data) :
    lineFields (Proxy_String fmtInt p) =
      [("proxy", p.proxy), ("weight", fmtInt p.Weight), ("last_check", fmtInt p.LastCheck),
        ("check_used", fmtInt p.CheckUsed), ("status", fmtInt p.StatusCode)] := by
  unfold lineFields
  rw [Proxy_String_data]
  rw [splitChar_append _ _ _ (not_mem_field _ _ (by decide) haddr),
    splitChar_append _ _ _ (not_mem_field _ _ (by decide) hw),
    splitChar_append _ _ _ (not_mem_field _ _ (by decide) hl),
    splitChar_append _ _ _ (not_mem_field _ _ (by decide) hc),
    splitChar_of_not_mem _ _ (not_mem_field _ _ (by decide) hs)]
  simp only [List.map_cons, List.map_nil]
  rw [splitKeyValue_append _ _ (by decide), splitKeyValue_append _ _ (by decide),
    splitKeyValue_append _ _ (by decide), splitKeyValue_append _ _ (by decide),
    splitKeyValue_append _ _ (by decide)]

theorem mapIndex_fields (a w l c s : String) :
    mapIndex (fieldsMap [("proxy", a), ("weight", w), ("last_check", l), ("check_used", c),
      ("status", s)]) "proxy" = a ∧
    mapIndex (fieldsMap [("proxy", a), ("weight", w), ("last_check", l), ("check_used", c),
      ("status", s)]) "weight" = w ∧
    mapIndex (fieldsMap [("proxy", a), ("weight", w), ("last_check", l), ("check_used", c),
      ("status", s)]) "last_check" = l ∧
    mapIndex (fieldsMap [("proxy", a), ("weight", w), ("last_check", l), ("check_used", c),
      ("status", s)]) "check_used" = c ∧
    mapIndex (fieldsMap [("proxy", a), ("weight", w), ("last_check", l), ("check_used", c),
      ("status", s)]) "status" = s := by
  unfold mapIndex fieldsMap
  simp only [List.foldl_cons, List.foldl_nil]
  refine ⟨?_, ?_, ?_, ?_, ?_⟩
  · rw [AList.lookup_insert_ne (by decide), AList.lookup_insert_ne (by decide),
      AList.lookup_insert_ne (by decide), AList.lookup_insert_ne (by decide),
      AList.lookup_insert]
  · rw [AList.lookup_insert_ne (by decide), AList.lookup_insert_ne (by decide),
      AList.lookup_insert_ne (by decide), AList.lookup_insert]
  · rw [AList.lookup_insert_ne (by decide), AList.lookup_insert_ne (by decide),
      AList.lookup_insert]
  · rw [AList.lookup_insert_ne (by decide), AList.lookup_insert]
  · rw [AList.lookup_insert]

/-- C14, counterexample: the address `http://10.0.0.1:8080#a<tab>b` parses as a
URL (the tab is in the fragment), but the line `Proxy.String()` writes for the
record is split at that tab too: the field `proxy` read back is
`http://10.0.0.1:8080#a`, and `parseProxy` yields a record with that address,
not the address of the record. -/
theorem Proxy_String_roundtrip_tab :
    fragmentUrlParse tabProxy.proxy = true ∧
    rendersInt sampleFmtInt sampleAtoi tabProxy.Weight ∧
    rendersInt sampleFmtInt sampleAtoi tabProxy.StatusCode ∧
    rendersInt sampleFmtInt sampleAtoi tabProxy.LastCheck ∧
    rendersInt sampleFmtInt sampleAtoi tabProxy.CheckUsed ∧
    mapIndex (fieldsMap (lineFields (Proxy_String sampleFmtInt tabProxy))) "proxy"
      = "http://10.0.0.1:8080#a" ∧
    parseProxy fragmentUrlParse sampleAtoi
      (some (fieldsMap (lineFields (Proxy_String sampleFmtInt tabProxy))))
      = some { tabProxy with proxy := "http://10.0.0.1:8080#a" } ∧
    tabProxy.proxy ≠ "http://10.0.0.1:8080#a" := by
  decide

/-- C14, amended: persistence round trip.  Let `p` be a proxy record whose
address parses as a URL and contains no tab, and let the library render the four
numbers of `p` without a tab and read its own renderings back.  Splitting the
line `Proxy.String()` produces for `p` at its tabs, and each field at its first
`=`, gives the five fields `proxy`, `weight`, `last_check`, `check_used`,
`status` with the values of `p`, and `parseProxy` on them yields a record with
the same address, weight, status, last check and check duration as `p` (and use
count 0).  `ProxyPool.String()` joins with newlines exactly one such line for
every entry of the registry of all proxies, whatever the active map is; when no
line contains a newline the lines are recovered by splitting the text at
newlines. -/
theorem Proxy_String_roundtrip (urlParse : String → Bool) (atoi : String → Option Int)
    (fmtInt : Int → String) (p : Proxy)
    (hparse : urlParse p.proxy = true)
    (htab : '\t' ∉ p.proxy.data)
    (hw : rendersInt fmtInt atoi p.Weight) (hs : rendersInt fmtInt atoi p.StatusCode)
    (hl : rendersInt fmtInt atoi p.LastCheck) (hc : rendersInt fmtInt atoi p.CheckUsed) :
    lineFields (Proxy_String fmtInt p) =
      [("proxy", p.proxy), ("weight", fmtInt p.Weight), ("last_check", fmtInt p.LastCheck),
        ("check_used", fmtInt p.CheckUsed), ("status", fmtInt p.StatusCode)] ∧
    parseProxy urlParse atoi (some (fieldsMap (lineFields (Proxy_String fmtInt p))))
      = some { p with Used := 0 } ∧
    (∀ (pool : ProxyPool) (order : List Entry), order.Perm pool.proxyListAll.entries →
      ProxyPool_String fmtInt pool order = stringsJoin "\n" (poolLines fmtInt pool order) ∧
      (poolLines fmtInt pool order).length = pool.proxyListAll.entries.length ∧
      (poolLines fmtInt pool order).Perm
        (pool.proxyListAll.entries.map (fun e => Proxy_String fmtInt (pool.heap e.2))) ∧
      (pool.proxyListAll.entries ≠ [] →
        (∀ line ∈ poolLines fmtInt pool order, '\n' ∉ line.data) →
        splitChar '\n' (ProxyPool_String fmtInt pool order).data
          = (poolLines fmtInt pool order).map String.data)) := by
  have hf := lineFields_Proxy_String fmtInt p htab hw.1 hl.1 hc.1 hs.1
  refine ⟨hf, ?_, ?_⟩
  · rw [hf]
    have hm := mapIndex_fields p.proxy (fmtInt p.Weight) (fmtInt p.LastCheck)
      (fmtInt p.CheckUsed) (fmtInt p.StatusCode)
    unfold parseProxy NewProxy intValue
    simp only [hm.1, hm.2.1, hm.2.2.1, hm.2.2.2.1, hm.2.2.2.2, hparse, if_true, hw.2, hs.2,
      hl.2, hc.2]
  · intro pool order ho
    refine ⟨rfl, ?_, ?_, ?_⟩
    · unfold poolLines
      rw [List.length_map]
      exact ho.length_eq
    · unfold poolLines
      exact ho.map _
    · intro hne hnl
      have hone : order ≠ [] := by
        intro c
        rw [c] at ho
        exact hne (List.Perm.nil_eq ho).symm
      have hlines : poolLines fmtInt pool order ≠ [] := by
        unfold poolLines
        intro c
        exact hone (List.map_eq_nil_iff.1 c)
      exact splitChar_stringsJoin '\n' _ hlines hnl

theorem intValue_fill (atoi : String → Option Int) (kv : StrMap) (key ds : String) (d : Int)
    (hd : defaultValues.lookup key = some ds) (ha : atoi ds = some d) :
    intValue atoi (kv ∪ defaultValues) key = fieldValue atoi kv key d := by
  unfold intValue fieldValue mapIndex
  cases hl : kv.lookup key with
  | some s =>
    have hmem : key ∈ kv := by rw [← AList.lookup_isSome, hl]; rfl
    rw [AList.lookup_union_left hmem, hl]
  | none =>
    have hmem : key ∉ kv := AList.lookup_eq_none.1 hl
    rw [AList.lookup_union_right hmem, hd]
    simp only [ha]

/-- C15: for every key=value record whose `proxy` address parses (with
`strconv.Atoi` reading "1" as 1 and "0" as 0), the record `loadConf` loads has
that address, and its weight, status, last check and check duration each equal
the integer the corresponding field reads as, 0 when the field is present but
does not read as an integer, and the defaults weight 1, status 1 (active),
last check 0, check duration 0 when the field is missing from the record.  So
the line `proxy=http://10.0.0.1:8080` alone loads with status active and
weight 1. -/
theorem loadRecord_fields (urlParse : String → Bool) (atoi : String → Option Int)
    (kv : StrMap) (addr : String)
    (hp : kv.lookup "proxy" = some addr) (hu : urlParse addr = true)
    (hone : atoi "1" = some 1) (hzero : atoi "0" = some 0) :
    loadRecord urlParse atoi kv =
      some { proxy := addr
             Weight := fieldValue atoi kv "weight" 1
             StatusCode := fieldValue atoi kv "status" 1
             CheckUsed := fieldValue atoi kv "check_used" 0
             LastCheck := fieldValue atoi kv "last_check" 0
             Used := 0 } ∧
    (urlParse "http://10.0.0.1:8080" = true →
      loadRecord urlParse atoi (fieldsMap (lineFields "proxy=http://10.0.0.1:8080")) =
        some { proxy := "http://10.0.0.1:8080"
               Weight := 1
               StatusCode := PROXY_STATUS_ACTIVE
               CheckUsed := 0
               LastCheck := 0
               Used := 0 }) := by
  have main : ∀ (kv : StrMap) (addr : String), kv.lookup "proxy" = some addr →
      urlParse addr = true →
      loadRecord urlParse atoi kv =
        some { proxy := addr
               Weight := fieldValue atoi kv "weight" 1
               StatusCode := fieldValue atoi kv "status" 1
               CheckUsed := fieldValue atoi kv "check_used" 0
               LastCheck := fieldValue atoi kv "last_check" 0
               Used := 0 } := by
    intro kv addr hp hu
    have hfill : fillDefaults defaultValues kv = some (kv ∪ defaultValues) := by
      unfold fillDefaults
      rw [hp]
      rfl
    have hmem : "proxy" ∈ kv := by rw [← AList.lookup_isSome, hp]; rfl
    have haddr : mapIndex (kv ∪ defaultValues) "proxy" = addr := by
      unfold mapIndex
      rw [AList.lookup_union_left hmem, hp]
    unfold loadRecord
    rw [hfill]
    unfold parseProxy NewProxy
    simp only [haddr, hu, if_true]
    rw [intValue_fill atoi kv "weight" "1" 1 (by decide) hone,
      intValue_fill atoi kv "status" "1" 1 (by decide) hone,
      intValue_fill atoi kv "check_used" "0" 0 (by decide) hzero,
      intValue_fill atoi kv "last_check" "0" 0 (by decide) hzero]
  refine ⟨main kv addr hp hu, fun hu2 => ?_⟩
  have hkv : fieldsMap (lineFields "proxy=http://10.0.0.1:8080")
      = AList.insert "proxy" "http://10.0.0.1:8080" ∅ := by
    have : lineFields "proxy=http://10.0.0.1:8080" = [("proxy", "http://10.0.0.1:8080")] := by
      decide
    rw [this]
    rfl
  rw [hkv, main _ "http://10.0.0.1:8080" (AList.lookup_insert _) hu2]
  have h1 : ∀ key : String, key ≠ "proxy" →
      (AList.insert "proxy" "http://10.0.0.1:8080" (∅ : StrMap)).lookup key = none := by
    intro key hk
    rw [AList.lookup_insert_ne hk, AList.lookup_empty]
  unfold fieldValue
  rw [h1 "weight" (by decide), h1 "status" (by decide), h1 "check_used" (by decide),
    h1 "last_check" (by decide)]
  rfl

/-- C15, witness: a record with a status that is no integer and no other
numeric field. -/
theorem loadRecord_fields_witness :
    (AList.insert "status" "up" (AList.insert "proxy" "http://10.0.0.2:8080" (∅ : StrMap))).lookup
      "proxy" = some "http://10.0.0.2:8080" ∧
    loadRecord sampleUrlParse sampleAtoi
      (AList.insert "status" "up" (AList.insert "proxy" "http://10.0.0.2:8080" (∅ : StrMap))) =
      some { proxy := "http://10.0.0.2:8080"
             Weight := fieldValue sampleAtoi
               (AList.insert "status" "up" (AList.insert "proxy" "http://10.0.0.2:8080" ∅))
               "weight" 1
             StatusCode := fieldValue sampleAtoi
               (AList.insert "status" "up" (AList.insert "proxy" "http://10.0.0.2:8080" ∅))
               "status" 1
             CheckUsed := fieldValue sampleAtoi
               (AList.insert "status" "up" (AList.insert "proxy" "http://10.0.0.2:8080" ∅))
               "check_used" 0
             LastCheck := fieldValue sampleAtoi
               (AList.insert "status" "up" (AList.insert "proxy" "http://10.0.0.2:8080" ∅))
               "last_check" 0
             Used := 0 } :=
  ⟨by decide,
    (loadRecord_fields sampleUrlParse sampleAtoi
      (AList.insert "status" "up" (AList.insert "proxy" "http://10.0.0.2:8080" ∅))
      "http://10.0.0.2:8080" (by decide) (by decide) (by decide) (by decide)).1⟩

/-- C14, witness: the first sample record survives the round trip. -/
theorem Proxy_String_roundtrip_witness :
    rendersInt sampleFmtInt sampleAtoi (sampleHeap 0).Weight ∧
    parseProxy sampleUrlParse sampleAtoi
      (some (fieldsMap (lineFields (Proxy_String sampleFmtInt (sampleHeap 0)))))
      = some { sampleHeap 0 with Used := 0 } :=
  ⟨by decide,
    (Proxy_String_roundtrip sampleUrlParse sampleAtoi sampleFmtInt (sampleHeap 0) (by decide)
      (by decide) (by decide) (by decide) (by decide) (by decide)).2.1⟩


end ProxyManager
